import Mathlib

/-!
# A verification of basico's model-interrogation layer

This file gives a shallow embedding, in Lean, of the string-translation,
entity-accessor and spatial-reshaping code of the `basico` package
(`basico/model_info.py` and `basico/compartment_array_tools.py`), and proves
properties of that embedding.

The external simulation engine (COPASI) is modelled abstractly: a data model
carries an object directory (display-name lookup, common-name lookup) and the
lists of entities (compartments, species, global parameters, reactions,
events, plot specifications) that the accessors read and mutate.  Numeric
payload values carried by the engine are modelled as rationals; none of the
proved properties inspects arithmetic on them.  Python string primitives
(`split()`, `strip()`, `startswith`, slicing, substring `in`) are modelled by
explicit executable functions on character lists.
-/

namespace Basico

/-! ## Python string primitives, modelled on `List Char` -/

/-- Python `str.strip()`: remove leading and trailing whitespace. -/
def pyStripChars (cs : List Char) : List Char :=
  ((cs.dropWhile Char.isWhitespace).reverse.dropWhile Char.isWhitespace).reverse

/-- Python `str.strip()` on strings. -/
def pyStrip (s : String) : String := String.mk (pyStripChars s.data)

/-- Auxiliary for `pyWords`: accumulates the current word reversed. -/
def pyWordsAux (cur : List Char) : List Char → List (List Char)
  | [] => if cur.isEmpty then [] else [cur.reverse]
  | c :: rest =>
    if c.isWhitespace then
      if cur.isEmpty then pyWordsAux [] rest
      else cur.reverse :: pyWordsAux [] rest
    else pyWordsAux (c :: cur) rest

/-- Python `str.split()` with no argument: split on whitespace runs,
producing no empty words. -/
def pyWords (cs : List Char) : List (List Char) := pyWordsAux [] cs

/-- `expression.replace('{', ' {').replace('}', '} ')` from
`_replace_names_with_cns`: a space before every `{` and after every `}`. -/
def braceSpaced (cs : List Char) : List Char :=
  ((cs.map fun c => if c = '{' then [' ', '{'] else [c]).flatten.map
    fun c => if c = '}' then ['}', ' '] else [c]).flatten

/-- Python `s.startswith(pre)`. -/
def pyStartsWith (s pre : String) : Bool :=
  s.data.take pre.data.length == pre.data

/-- Python `s.endswith(suf)`. -/
def pyEndsWith (s suf : String) : Bool :=
  decide (suf.data.length ≤ s.data.length) &&
    (s.data.drop (s.data.length - suf.data.length) == suf.data)

/-- Python `needle in hay` on strings: substring containment. -/
def pyIn (needle hay : String) : Bool := decide (needle.data <:+: hay.data)

/-- Python `word[1:-1]`. -/
def pyDropEnds (s : String) : String := String.mk ((s.data.drop 1).dropLast)

/-- Python `word[1:]`. -/
def pyDropFirst (s : String) : String := String.mk (s.data.drop 1)

/-- Python `word[:-1]`. -/
def pyDropLast (s : String) : String := String.mk s.data.dropLast

/-! ## The abstract engine data model

`CObject` is what the object directory returns: the object's common name
(the engine's symbolic reference), its display name, and whether it is the
model object itself (`COPASI.CModel`), in which case `_replace_names_with_cns`
substitutes the model's value reference. -/

structure CObject where
  cn : String
  displayName : String
  isModel : Bool
deriving DecidableEq

/-- The engine's live object directory of a data model:
`findObjectByDisplayName`, `getObject(CCommonName(..))`, and the model
object's value reference. -/
structure CObjectDirectory where
  byName : String → Option CObject
  byCN : String → Option CObject
  valueRef : CObject

/-! ## Entities of the engine model -/

/-- `COPASI.CModelEntity.Status_*` constants. -/
inductive EntityStatus
  | fixed | assignment | ode | reactions | time
deriving DecidableEq

/-- `__status_to_string` of `model_info.py` (the int-keyed dictionary with
default `'fixed'`; the keys are the five status constants, so the default
branch is unreachable here). -/
def statusToString : EntityStatus → String
  | .fixed => "fixed"
  | .assignment => "assignment"
  | .ode => "ode"
  | .reactions => "reactions"
  | .time => "time"

/-- A species (`COPASI.CMetab`), with the attributes `get_species` reads. -/
structure CMetab where
  objectName : String
  compartmentName : String
  status : EntityStatus
  unitExpression : String
  initialConcentration : Rat
  initialValue : Rat
  initialExpressionRaw : String
  expressionRaw : String
  concentration : Rat
  value : Rat
  concentrationRate : Rat
  rate : Rat
  key : String
  displayName : String
deriving DecidableEq

/-- A compartment (`COPASI.CCompartment`). -/
structure CCompartment where
  objectName : String
  status : EntityStatus
  unitExpression : String
  initialValue : Rat
  initialExpressionRaw : String
  dimensionality : Nat
  expressionRaw : String
  value : Rat
  rate : Rat
  key : String
deriving DecidableEq

/-- A global parameter (`COPASI.CModelValue`). -/
structure CModelValue where
  objectName : String
  status : EntityStatus
  unitExpression : String
  initialValue : Rat
  initialExpressionRaw : String
  expressionRaw : String
  value : Rat
  rate : Rat
  key : String
  displayName : String
deriving DecidableEq

/-- A reaction (`COPASI.CReaction`). -/
structure CReaction where
  objectName : String
  scheme : String
  flux : Rat
  particleFlux : Rat
  functionName : String
  key : String
deriving DecidableEq

/-- An event assignment (`COPASI.CEventAssignment`); the target object may be
unresolved (`getTargetObject()` returning `None`). -/
structure CEventAssignment where
  targetDisplayName : Option String
  expressionRaw : String
deriving DecidableEq

/-- An event (`COPASI.CEvent`). -/
structure CEvent where
  objectName : String
  triggerExpressionRaw : String
  delayExpressionRaw : String
  assignments : List CEventAssignment
  key : String
deriving DecidableEq

/-- A plot item (`COPASI.CPlotItem`): its name, integer curve type, optional
named parameters (a missing parameter is `getParameter(..)` returning a falsy
value), and the common names of its channels. -/
structure CPlotItem where
  objectName : String
  curveType : Nat
  color : Option String
  lineType : Option Nat
  lineSubtype : Option Nat
  lineWidth : Option Rat
  symbolSubtype : Option Nat
  recordingActivity : Option String
  channels : List String
deriving DecidableEq

/-- A plot specification (`COPASI.CPlotSpecification`). -/
structure CPlotSpecification where
  objectName : String
  active : Bool
  logX : Bool
  logY : Bool
  taskTypes : String
  items : List CPlotItem
deriving DecidableEq

/-- The engine model object (`COPASI.CModel`): entity containers and the
units `get_species` reads for its unit default. -/
structure CModel where
  compartments : List CCompartment
  metabs : List CMetab
  modelValues : List CModelValue
  reactions : List CReaction
  events : List CEvent
  quantityUnit : String
  volumeUnit : String
deriving DecidableEq

/-- The engine data model handle (`COPASI.CDataModel`): the model, the plot
definition list, and the object directory. -/
structure CDataModel where
  model : CModel
  plotSpecs : List CPlotSpecification
  dir : CObjectDirectory

/-- `dm.findObjectByDisplayName(name)`. -/
def CDataModel.findObjectByDisplayName (dm : CDataModel) (name : String) :
    Option CObject :=
  dm.dir.byName name

/-- `dm.getObject(COPASI.CCommonName(cn))`. -/
def CDataModel.getObject (dm : CDataModel) (cn : String) : Option CObject :=
  dm.dir.byCN cn

/-! ## `_replace_names_with_cns` -/

/-- The brace-stripping step of `_replace_names_with_cns`:
`if word.startswith('{') and word.endswith('}'): word = word[1:-1]`. -/
def stripBraces (w : String) : String :=
  if pyStartsWith w "\x7b" && pyEndsWith w "\x7d" then pyDropEnds w else w

/-- The token list `_replace_names_with_cns` iterates over: the expression
with spaces forced around braces, split on whitespace. -/
def exprTokens (expression : String) : List String :=
  (pyWords (braceSpaced expression.data)).map String.mk

/-- One lookup of `_replace_names_with_cns`: `findObjectByDisplayName`,
substituting the model's value reference when the model object itself is
found. -/
def resolveToken (dm : CDataModel) (w : String) : Option CObject :=
  match dm.findObjectByDisplayName w with
  | some obj => some (if obj.isModel then dm.dir.valueRef else obj)
  | none => none

/-- `_replace_names_with_cns(expression, model=dm)` of `model_info.py`:
force spaces around braces, split on whitespace, strip braces from each word,
replace every word that resolves in the object directory by `<CN>` (with the
model object replaced by its value reference), keep the others, and strip the
result. -/
def _replace_names_with_cns (dm : CDataModel) (expression : String) : String :=
  pyStrip <| (exprTokens expression).foldl (fun acc word =>
    let w := stripBraces word
    match resolveToken dm w with
    | some obj => acc ++ " <" ++ obj.cn ++ ">"
    | none => acc ++ " " ++ w) ""

/-! ## `_split_by_cn` -/

/-- The operator characters of `_split_by_cn`: `'/*+-()^%<>!=&|'`. -/
def opChars : List Char :=
  ['/', '*', '+', '-', '(', ')', '^', '%', '<', '>', '!', '=', '&', '|']

/-- Index of the first occurrence of a character, if any. -/
def charIdx (c : Char) : List Char → Option Nat
  | [] => none
  | a :: rest => if a = c then some 0 else (charIdx c rest).map (· + 1)

/-- Python `expression.find(c, start)`: index of the first occurrence of `c`
at or after `start`, or `-1`. -/
def pyFind (cs : List Char) (c : Char) (start : Nat) : Int :=
  match charIdx c (cs.drop start) with
  | some i => ((start + i : Nat) : Int)
  | none => -1

/-- Python slice `cs[a:e]` as used in `_split_by_cn`, where `e` is the result
of `find`: `-1` addresses the last element, so `cs[a:-1]` stops one short of
the end; a nonnegative `e` stops before index `e`. -/
def pySliceTo (cs : List Char) (a : Nat) (e : Int) : List Char :=
  if e < 0 then (cs.drop a).dropLast
  else (cs.drop a).take (e.toNat - a)

/-- State of the `while` loop of `_split_by_cn`: accumulated result words,
the current partial word, and the scan position. -/
structure SplitState where
  result : List String
  current : List Char
  pos : Nat
deriving DecidableEq

/-- One iteration of the `while` loop of `_split_by_cn`: either a next state,
or (when `pos` has reached the end) the returned word list. -/
def splitStep (cs : List Char) (s : SplitState) : SplitState ⊕ List String :=
  if h : s.pos < cs.length then
    let curChar := cs.get ⟨s.pos, h⟩
    if curChar = '<' ∧ s.pos + 4 < cs.length ∧
        (cs.drop s.pos).take 4 = ['<', 'C', 'N', '='] then
      let e := pyFind cs '>' s.pos
      let cn := pySliceTo cs (s.pos + 1) e
      Sum.inl ⟨s.result ++ [String.mk cn], [], (e + 1).toNat⟩
    else if curChar ∈ opChars then
      let flushed :=
        if s.current.isEmpty then s.result else s.result ++ [String.mk s.current]
      if h2 : s.pos + 1 < cs.length then
        if cs.get ⟨s.pos + 1, h2⟩ = '=' then
          Sum.inl ⟨flushed ++ [String.mk [curChar, '=']], [], s.pos + 2⟩
        else
          Sum.inl ⟨flushed ++ [String.mk [curChar]], [], s.pos + 1⟩
      else
        Sum.inl ⟨flushed ++ [String.mk [curChar]], [], s.pos + 1⟩
    else if curChar ≠ ' ' then
      Sum.inl ⟨s.result, s.current ++ [curChar], s.pos + 1⟩
    else
      Sum.inl ⟨s.result, s.current, s.pos + 1⟩
  else
    Sum.inr (if s.current.isEmpty then s.result else s.result ++ [String.mk s.current])

/-- The `while` loop of `_split_by_cn`, run with explicit fuel. -/
def splitByCnFuel (cs : List Char) : Nat → SplitState → Option (List String)
  | 0, _ => none
  | fuel + 1, s =>
    match splitStep cs s with
    | Sum.inl s' => splitByCnFuel cs fuel s'
    | Sum.inr r => some r

/-- `_split_by_cn(expression)` of `model_info.py`.  The Python `while` loop is
run with fuel `len(expression) + 1`: every terminating run of the Python loop
strictly advances `pos` on each iteration and therefore finishes within that
fuel, while a run that enters a `<CN=` marker with no later `>` resets `pos`
to `find('>', pos) + 1 = 0` and never terminates; such runs are modelled as
`none`. -/
def _split_by_cn (expression : String) : Option (List String) :=
  splitByCnFuel expression.data (expression.data.length + 1) ⟨[], [], 0⟩

/-! ## `_replace_cns_with_names` -/

/-- The lookup step of `_replace_cns_with_names`: `word` is set to `''`, then
to `obj.getObjectDisplayName()` when `dm.getObject(CCommonName(cn))` finds an
object. -/
def cnDisplay (dm : CDataModel) (cn : String) : String :=
  match dm.getObject cn with
  | some obj => obj.displayName
  | none => ""

/-- The inner `while` of `_replace_cns_with_names` (branch for a word that
starts with `<CN` but does not end with `>`): gather further words until one
ends with `>`.  Running past the end of `words` raises `IndexError` in
Python; that is modelled as `none`.  Returns the gathered common name and the
value Python assigns to `skip` (one past the index of the closing word).  The
first argument is structural-recursion fuel; since the index grows by one
per consumed unit and the loop stops at `words.length`, the fuel
`words.length + 1` passed by the caller can never run out. -/
def gatherCn (words : List String) : Nat → Nat → String → Option (String × Nat)
  | 0, _, _ => none
  | fuel + 1, i, cn =>
    if h : i < words.length then
      let w := words.get ⟨i, h⟩
      if pyEndsWith w ">" then some (cn ++ " " ++ pyDropLast w, i + 1)
      else gatherCn words fuel (i + 1) (cn ++ " " ++ w)
    else none

/-- The `for i in range(len(words))` loop of `_replace_cns_with_names`.  The
loop reads the data model only through the lookup of `cnDisplay`, which is
passed in as `disp`.  The `skip` variable starts at `-1` in Python and is
only used in the comparison `i < skip`, so it is modelled as a natural number
starting at `0`.  The first `Nat` is structural-recursion fuel; the index
grows by one per consumed unit, so the caller's `words.length + 1` can never
run out. -/
def replaceCnsLoop (disp : String → String) (words : List String) :
    Nat → Nat → Nat → String → Option String
  | 0, _, _, _ => none
  | fuel + 1, i, skip, acc =>
    if h : i < words.length then
      if i < skip then replaceCnsLoop disp words fuel (i + 1) skip acc
      else
        let word := words.get ⟨i, h⟩
        if pyStartsWith word "<CN" && pyEndsWith word ">" then
          replaceCnsLoop disp words fuel (i + 1) skip
            (acc ++ " " ++ disp (pyDropEnds word))
        else if pyStartsWith word "<CN" then
          match gatherCn words (words.length + 1) (i + 1) (pyDropFirst word) with
          | none => none
          | some (cn, newSkip) =>
            replaceCnsLoop disp words fuel (i + 1) newSkip
              (acc ++ " " ++ disp cn)
        else if pyStartsWith word "CN=" then
          replaceCnsLoop disp words fuel (i + 1) skip (acc ++ " " ++ disp word)
        else
          replaceCnsLoop disp words fuel (i + 1) skip (acc ++ " " ++ word)
    else some (pyStrip acc)

/-- `_replace_cns_with_names(expression, model=dm)` of `model_info.py`.
Returns `none` when the underlying `_split_by_cn` run does not terminate or
when the inner gathering loop would raise `IndexError`. -/
def _replace_cns_with_names (dm : CDataModel) (expression : String) :
    Option String :=
  if expression = "" then some expression
  else
    match _split_by_cn expression with
    | none => none
    | some words => replaceCnsLoop (cnDisplay dm) words (words.length + 1) 0 0 ""

/-! ## The process-wide current model

`model_io.get_current_model` lives in `basico/model_io.py`, which is not part
of the sources under study; per the specification it supplies the
"process-wide current model default" that every accessor falls back to when
no `model` keyword argument is given. -/

/-- The process-wide state visible to the accessors. -/
structure ProcessState where
  currentModel : CDataModel

/-- Modelled from the spec: `model_io.get_current_model` (module
`basico/model_io.py`, not under the sources studied here) returns the
process-wide "current model" default used when no `model` keyword argument is
supplied. -/
def get_current_model (st : ProcessState) : CDataModel := st.currentModel

/-! ## Entity getters

Each getter builds a list of row dictionaries and returns
`pandas.DataFrame(data).set_index('name')`, or Python `None` when no row
survives the filters.  A data frame indexed by name is modelled as the list
of `(name, row)` pairs; `None` is `Option.none`.  Row fields produced by
`_replace_cns_with_names` are `Option String` because that translator is
partial (see `_split_by_cn`). -/

/-- `pandas.DataFrame(data=data).set_index('name')`: the rows keyed by their
name column. -/
def toIndexed {α : Type} (nameOf : α → String) (rows : List α) :
    List (String × α) :=
  rows.map fun r => (nameOf r, r)

/-- A row of the `get_species` result (the `metab_data` dictionary). -/
structure SpeciesData where
  name : String
  compartment : String
  type : String
  unit : String
  initial_concentration : Rat
  initial_particle_number : Rat
  initial_expression : Option String
  expression : Option String
  concentration : Rat
  particle_number : Rat
  rate : Rat
  particle_number_rate : Rat
  key : String
deriving DecidableEq

/-- The `metab_data` dictionary of `get_species`.  The `unit` default uses
the model's quantity and volume units when the species has no unit
expression.  The two expression columns call `_replace_cns_with_names`
without a `model` argument, so they are translated against the process-wide
current model `cur`, not against the model being listed. -/
def speciesRecord (cur : CDataModel) (model : CModel) (metab : CMetab) :
    SpeciesData where
  name := metab.objectName
  compartment := metab.compartmentName
  type := statusToString metab.status
  unit :=
    if metab.unitExpression = "" then model.quantityUnit ++ "/" ++ model.volumeUnit
    else metab.unitExpression
  initial_concentration := metab.initialConcentration
  initial_particle_number := metab.initialValue
  initial_expression := _replace_cns_with_names cur metab.initialExpressionRaw
  expression := _replace_cns_with_names cur metab.expressionRaw
  concentration := metab.concentration
  particle_number := metab.value
  rate := metab.concentrationRate
  particle_number_rate := metab.rate
  key := metab.key

/-- The filter conditions of the `get_species` loop, in source order; `true`
means the row is skipped (`continue`).  The positional `name` filter is
modelled for the string case (a non-string iterable `name` raises `TypeError`
at the `name not in metab_data['name']` test in Python and is not modelled);
a `None` or empty `name` is falsy and filters nothing. -/
def speciesSkipped (name kwName kwCompartment kwType : Option String)
    (row : SpeciesData) (displayName : String) : Bool :=
  (match kwName with
   | some n => !(pyIn n row.name)
   | none => false) ||
  (match name with
   | some n => n ≠ "" && !(pyIn n row.name) && !(pyIn n displayName)
   | none => false) ||
  (match name with
   | some n => n ≠ "" && !(pyIn n row.name) && !(pyIn displayName n)
   | none => false) ||
  (match kwCompartment with
   | some c => !(pyIn c row.compartment)
   | none => false) ||
  (match kwType with
   | some t => !(pyIn t row.type)
   | none => false)

/-- `get_species(name, **kwargs)` run on the selected data model `dm` with
current model `cur`. -/
def get_species_on (dm cur : CDataModel)
    (name kwName kwCompartment kwType : Option String) :
    Option (List (String × SpeciesData)) :=
  let data := dm.model.metabs.filterMap fun metab =>
    let row := speciesRecord cur dm.model metab
    if speciesSkipped name kwName kwCompartment kwType row metab.displayName
    then none else some row
  if data = [] then none else some (toIndexed SpeciesData.name data)

/-- A row of the `get_events` result. -/
structure EventAssignmentData where
  target : String
  expression : Option String
deriving DecidableEq

/-- A row of the `get_events` result (the `event_data` dictionary). -/
structure EventData where
  name : String
  trigger : Option String
  delay : Option String
  assignments : List EventAssignmentData
  key : String
deriving DecidableEq

/-- The `event_data` dictionary of `get_events`; assignments whose target
object does not resolve are skipped, and all expressions are translated with
`model=dm`. -/
def eventRecord (dm : CDataModel) (event : CEvent) : EventData where
  name := event.objectName
  trigger := _replace_cns_with_names dm event.triggerExpressionRaw
  delay := _replace_cns_with_names dm event.delayExpressionRaw
  assignments := event.assignments.filterMap fun ea =>
    match ea.targetDisplayName with
    | none => none
    | some t => some ⟨t, _replace_cns_with_names dm ea.expressionRaw⟩
  key := event.key

/-- The two name filters shared by `get_events`, `get_plots` and
`get_reactions`, in source order: the `name` keyword argument (substring
test), then the truthy positional `name` (substring test). -/
def nameSkipped (name kwName : Option String) (rowName : String) : Bool :=
  (match kwName with
   | some n => !(pyIn n rowName)
   | none => false) ||
  (match name with
   | some n => n ≠ "" && !(pyIn n rowName)
   | none => false)

/-- `get_events(name, **kwargs)` run on the selected data model `dm`. -/
def get_events_on (dm : CDataModel) (name kwName : Option String) :
    Option (List (String × EventData)) :=
  let data := dm.model.events.filterMap fun event =>
    let row := eventRecord dm event
    if nameSkipped name kwName row.name then none else some row
  if data = [] then none else some (toIndexed EventData.name data)

/-- A curve dictionary of `get_plot_dict`; the optional entries are present
exactly when the corresponding plot-item parameter exists. -/
structure CurveData where
  name : String
  type : String
  channels : List String
  color : Option String
  line_type : Option String
  line_subtype : Option String
  line_width : Option Rat
  symbol : Option String
  activity : Option String
deriving DecidableEq

/-- `__curve_type_to_string` of `model_info.py`. -/
def curveTypeToString (curveType : Nat) : String :=
  if curveType = 1 then "curve2d"
  else if curveType = 2 then "histoItem1d"
  else if curveType = 3 then "bandedGraph"
  else if curveType = 7 then "spectogram"
  else "curve2d"

/-- `__line_type_to_string` of `model_info.py`. -/
def lineTypeToString (lineType : Nat) : String :=
  if lineType = 0 then "lines"
  else if lineType = 1 then "points"
  else if lineType = 2 then "symbols"
  else if lineType = 3 then "lines_and_symbols"
  else "lines"

/-- `__line_subtype_to_string` of `model_info.py`. -/
def lineSubtypeToString (subType : Nat) : String :=
  if subType = 0 then "solid"
  else if subType = 1 then "dotted"
  else if subType = 2 then "dashed"
  else if subType = 3 then "dot_dash"
  else if subType = 4 then "dot_dot_dash"
  else "solid"

/-- `__symbol_to_string` of `model_info.py`. -/
def symbolToString (symbolType : Nat) : String :=
  if symbolType = 0 then "small_cross"
  else if symbolType = 1 then "large_cross"
  else if symbolType = 2 then "circle"
  else "small_cross"

/-- The `curve_data` dictionary built by `get_plot_dict` for one plot item:
name, curve type, the optional parameter entries, and the display names of
the channels that resolve through `dm.getObject` (unresolved channels are
skipped). -/
def curveRecord (dm : CDataModel) (item : CPlotItem) : CurveData where
  name := item.objectName
  type := curveTypeToString item.curveType
  channels := item.channels.filterMap fun cn =>
    match dm.getObject cn with
    | none => none
    | some obj => some obj.displayName
  color := item.color
  line_type := item.lineType.map lineTypeToString
  line_subtype := item.lineSubtype.map lineSubtypeToString
  line_width := item.lineWidth
  symbol := item.symbolSubtype.map symbolToString
  activity := item.recordingActivity

/-- The dictionary returned by `get_plot_dict` (for a plot-specification
object; the string/int lookup entry path of `get_plot_dict` is not used by
`get_plots`, which always passes the specification object). -/
structure PlotData where
  name : String
  active : Bool
  log_x : Bool
  log_y : Bool
  tasks : String
  curves : List CurveData
deriving DecidableEq

/-- `get_plot_dict(plot_spec, model=dm)` of `model_info.py`, for a
plot-specification object. -/
def get_plot_dict (dm : CDataModel) (spec : CPlotSpecification) : PlotData where
  name := spec.objectName
  active := spec.active
  log_x := spec.logX
  log_y := spec.logY
  tasks := spec.taskTypes
  curves := spec.items.map (curveRecord dm)

/-- `get_plots(name, **kwargs)` run on the selected data model `dm`. -/
def get_plots_on (dm : CDataModel) (name kwName : Option String) :
    Option (List (String × PlotData)) :=
  let data := dm.plotSpecs.filterMap fun spec =>
    let row := get_plot_dict dm spec
    if nameSkipped name kwName row.name then none else some row
  if data = [] then none else some (toIndexed PlotData.name data)

/-- A row of the `get_compartments` result. -/
structure CompartmentData where
  name : String
  type : String
  unit : String
  initial_size : Rat
  initial_expression : Option String
  dimensionality : Nat
  expression : Option String
  size : Rat
  rate : Rat
  key : String
deriving DecidableEq

/-- The `comp_data` dictionary of `get_compartments`; as in `get_species`,
the expression columns are translated against the current model `cur`. -/
def compartmentRecord (cur : CDataModel) (model : CModel)
    (compartment : CCompartment) : CompartmentData where
  name := compartment.objectName
  type := statusToString compartment.status
  unit :=
    if compartment.unitExpression = "" then model.volumeUnit
    else compartment.unitExpression
  initial_size := compartment.initialValue
  initial_expression := _replace_cns_with_names cur compartment.initialExpressionRaw
  dimensionality := compartment.dimensionality
  expression := _replace_cns_with_names cur compartment.expressionRaw
  size := compartment.value
  rate := compartment.rate
  key := compartment.key

/-- The filter conditions of the `get_compartments` loop, in source order. -/
def compartmentSkipped (name kwName kwType : Option String)
    (row : CompartmentData) : Bool :=
  (match kwName with
   | some n => !(pyIn n row.name)
   | none => false) ||
  (match name with
   | some n => n ≠ "" && !(pyIn n row.name)
   | none => false) ||
  (match kwType with
   | some t => !(pyIn t row.type)
   | none => false)

/-- `get_compartments(name, **kwargs)` run on the selected data model `dm`
with current model `cur`. -/
def get_compartments_on (dm cur : CDataModel)
    (name kwName kwType : Option String) :
    Option (List (String × CompartmentData)) :=
  let data := dm.model.compartments.filterMap fun compartment =>
    let row := compartmentRecord cur dm.model compartment
    if compartmentSkipped name kwName kwType row then none else some row
  if data = [] then none else some (toIndexed CompartmentData.name data)

/-- A row of the `get_parameters` result. -/
structure ParameterData where
  name : String
  type : String
  unit : String
  initial_value : Rat
  initial_expression : Option String
  expression : Option String
  value : Rat
  rate : Rat
  key : String
deriving DecidableEq

/-- The `param_data` dictionary of `get_parameters`; as in `get_species`, the
expression columns are translated against the current model `cur`. -/
def parameterRecord (cur : CDataModel) (param : CModelValue) : ParameterData where
  name := param.objectName
  type := statusToString param.status
  unit := param.unitExpression
  initial_value := param.initialValue
  initial_expression := _replace_cns_with_names cur param.initialExpressionRaw
  expression := _replace_cns_with_names cur param.expressionRaw
  value := param.value
  rate := param.rate
  key := param.key

/-- The filter conditions of the `get_parameters` loop, in source order: the
`unit` keyword (substring of the parameter's unit expression, which is also
the row's `unit` column), then the two name filters, which also accept an
exact display-name match, then the `type` keyword. -/
def parameterSkipped (name kwName kwType kwUnit : Option String)
    (row : ParameterData) (displayName : String) : Bool :=
  (match kwUnit with
   | some u => !(pyIn u row.unit)
   | none => false) ||
  (match kwName with
   | some n => !(pyIn n row.name) && n ≠ displayName
   | none => false) ||
  (match name with
   | some n => n ≠ "" && !(pyIn n row.name) && n ≠ displayName
   | none => false) ||
  (match kwType with
   | some t => !(pyIn t row.type)
   | none => false)

/-- `get_parameters(name, **kwargs)` run on the selected data model `dm` with
current model `cur`.  The `unit` filter runs before the row is kept, and the
two name filters also accept an exact display-name match. -/
def get_parameters_on (dm cur : CDataModel)
    (name kwName kwType kwUnit : Option String) :
    Option (List (String × ParameterData)) :=
  let data := dm.model.modelValues.filterMap fun param =>
    let row := parameterRecord cur param
    if parameterSkipped name kwName kwType kwUnit row param.displayName
    then none else some row
  if data = [] then none else some (toIndexed ParameterData.name data)

/-- A row of the `get_reactions` result. -/
structure ReactionData where
  name : String
  scheme : String
  flux : Rat
  particle_flux : Rat
  function : String
deriving DecidableEq

/-- The `reaction_data` dictionary of `get_reactions`. -/
def reactionRecord (reaction : CReaction) : ReactionData where
  name := reaction.objectName
  scheme := reaction.scheme
  flux := reaction.flux
  particle_flux := reaction.particleFlux
  function := reaction.functionName

/-- `get_reactions(name, **kwargs)` run on the selected data model `dm`. -/
def get_reactions_on (dm : CDataModel) (name kwName : Option String) :
    Option (List (String × ReactionData)) :=
  let data := dm.model.reactions.filterMap fun reaction =>
    let row := reactionRecord reaction
    if nameSkipped name kwName row.name then none else some row
  if data = [] then none else some (toIndexed ReactionData.name data)

/-! ## Remove operations

Each `remove_*` looks the element up by name, logs a warning and returns when
it is absent, and otherwise removes the element with the found key.  The
engine's `compileIfNecessary`/`setCompileFlag` calls touch only
engine-internal compile state, not the model contents modelled here.
Warnings are returned as a list of logged messages. -/

/-- `model.getMetabolite(name)`: the species with the given object name. -/
def CModel.getMetabolite (m : CModel) (name : String) : Option CMetab :=
  m.metabs.find? fun mb => mb.objectName == name

/-- `model.removeMetabolite(key)`: the engine removes the species with the
given key. -/
def CModel.removeMetabolite (m : CModel) (key : String) : CModel :=
  { m with metabs := m.metabs.filter fun mb => mb.key != key }

/-- `model.getModelValue(name)`. -/
def CModel.getModelValue (m : CModel) (name : String) : Option CModelValue :=
  m.modelValues.find? fun mv => mv.objectName == name

/-- `model.removeModelValue(key)`. -/
def CModel.removeModelValue (m : CModel) (key : String) : CModel :=
  { m with modelValues := m.modelValues.filter fun mv => mv.key != key }

/-- `model.getCompartment(name)`. -/
def CModel.getCompartment (m : CModel) (name : String) : Option CCompartment :=
  m.compartments.find? fun c => c.objectName == name

/-- `model.removeCompartment(key)`. -/
def CModel.removeCompartment (m : CModel) (key : String) : CModel :=
  { m with compartments := m.compartments.filter fun c => c.key != key }

/-- `model.getEvent(name)`. -/
def CModel.getEvent (m : CModel) (name : String) : Option CEvent :=
  m.events.find? fun ev => ev.objectName == name

/-- `model.removeEvent(key)`: the engine removes the **event** with the given
key; a key that belongs to no event removes nothing. -/
def CModel.removeEvent (m : CModel) (key : String) : CModel :=
  { m with events := m.events.filter fun ev => ev.key != key }

/-- `model.getReaction(name)`. -/
def CModel.getReaction (m : CModel) (name : String) : Option CReaction :=
  m.reactions.find? fun r => r.objectName == name

/-- `remove_species(name)` run on the selected data model. -/
def remove_species_on (name : String) (dm : CDataModel) :
    CDataModel × List String :=
  match dm.model.getMetabolite name with
  | none => (dm, ["no such metabolite " ++ name])
  | some metab =>
    ({ dm with model := dm.model.removeMetabolite metab.key }, [])

/-- `remove_parameter(name)` run on the selected data model. -/
def remove_parameter_on (name : String) (dm : CDataModel) :
    CDataModel × List String :=
  match dm.model.getModelValue name with
  | none => (dm, ["no such global parameter " ++ name])
  | some mv =>
    ({ dm with model := dm.model.removeModelValue mv.key }, [])

/-- `remove_compartment(name)` run on the selected data model. -/
def remove_compartment_on (name : String) (dm : CDataModel) :
    CDataModel × List String :=
  match dm.model.getCompartment name with
  | none => (dm, ["no such compartment " ++ name])
  | some comp =>
    ({ dm with model := dm.model.removeCompartment comp.key }, [])

/-- `remove_event(name)` run on the selected data model. -/
def remove_event_on (name : String) (dm : CDataModel) :
    CDataModel × List String :=
  match dm.model.getEvent name with
  | none => (dm, ["no such event " ++ name])
  | some ev =>
    ({ dm with model := dm.model.removeEvent ev.key }, [])

/-- The scan of `remove_plot` over the output definition list: remove the
first entry whose name matches (`output_list.remove(i); return`), or report
that none matched. -/
def removePlotLoop (name : String) :
    List CPlotSpecification → Option (List CPlotSpecification)
  | [] => none
  | p :: rest =>
    if p.objectName == name then some rest
    else (removePlotLoop name rest).map (p :: ·)

/-- `remove_plot(name)` run on the selected data model: scan the plot
definition list, remove the first entry whose name matches and return;
when none matches, log a warning. -/
def remove_plot_on (name : String) (dm : CDataModel) :
    CDataModel × List String :=
  match removePlotLoop name dm.plotSpecs with
  | some ps => ({ dm with plotSpecs := ps }, [])
  | none => (dm, ["no such plot " ++ name])

/-- `remove_reaction(name)` run on the selected data model.  Note the source
body: after looking up the reaction by name and taking its key, it calls
`model.removeEvent(key)` — not a reaction removal — so the looked-up
reaction itself is never removed from the reaction list. -/
def remove_reaction_on (name : String) (dm : CDataModel) :
    CDataModel × List String :=
  match dm.model.getReaction name with
  | none => (dm, ["no such reaction " ++ name])
  | some reaction =>
    ({ dm with model := dm.model.removeEvent reaction.key }, [])

/-! ## Add operations

The `add_*` functions delegate creation to the engine's `create*` methods,
which return `None` when an element of the same name already exists, and then
`raise ValueError(..)` on that `None`; exceptions are modelled with `Except`.
Engine-generated keys are modelled as `"<Kind>_" ++ name` (unique per kind
because creation rejects duplicate names). -/

/-- `model.createCompartment(name, initial_size)`: `None` when a compartment
of that name exists, otherwise a fresh compartment with engine defaults. -/
def CModel.createCompartment (m : CModel) (name : String) (size : Rat) :
    Option (CModel × CCompartment) :=
  if m.compartments.any (fun c => c.objectName == name) then none
  else
    let c : CCompartment :=
      { objectName := name, status := .fixed, unitExpression := ""
        initialValue := size, initialExpressionRaw := "", dimensionality := 3
        expressionRaw := "", value := size, rate := 0
        key := "Compartment_" ++ name }
    some ({ m with compartments := m.compartments ++ [c] }, c)

/-- `model.createMetabolite(name, compartment_name, initial_concentration)`:
`None` when the compartment does not exist or a species of that name already
exists in it. -/
def CModel.createMetabolite (m : CModel) (name compartmentName : String)
    (conc : Rat) : Option (CModel × CMetab) :=
  if !(m.compartments.any fun c => c.objectName == compartmentName) then none
  else if m.metabs.any (fun mb =>
      mb.objectName == name && mb.compartmentName == compartmentName) then none
  else
    let mb : CMetab :=
      { objectName := name, compartmentName := compartmentName
        status := .reactions, unitExpression := ""
        initialConcentration := conc, initialValue := 0
        initialExpressionRaw := "", expressionRaw := ""
        concentration := conc, value := 0, concentrationRate := 0, rate := 0
        key := "Metabolite_" ++ name, displayName := name }
    some ({ m with metabs := m.metabs ++ [mb] }, mb)

/-- `model.createModelValue(name, initial_value)`: `None` when a global
parameter of that name exists. -/
def CModel.createModelValue (m : CModel) (name : String) (v : Rat) :
    Option (CModel × CModelValue) :=
  if m.modelValues.any (fun mv => mv.objectName == name) then none
  else
    let mv : CModelValue :=
      { objectName := name, status := .fixed, unitExpression := ""
        initialValue := v, initialExpressionRaw := "", expressionRaw := ""
        value := v, rate := 0, key := "ModelValue_" ++ name
        displayName := name }
    some ({ m with modelValues := m.modelValues ++ [mv] }, mv)

/-- `model.createEvent(name)`: `None` when an event of that name exists. -/
def CModel.createEvent (m : CModel) (name : String) :
    Option (CModel × CEvent) :=
  if m.events.any (fun ev => ev.objectName == name) then none
  else
    let ev : CEvent := ⟨name, "", "", [], "Event_" ++ name⟩
    some ({ m with events := m.events ++ [ev] }, ev)

/-- `add_compartment(name, initial_size)` run on the selected data model:
`raise ValueError(..)` when the engine returns `None`; the subsequent
`set_compartment(name, ..)` call carries no further keyword arguments here
and applies no changes. -/
def add_compartment_on (name : String) (initial_size : Rat)
    (dm : CDataModel) : Except String (CDataModel × CCompartment) :=
  match dm.model.createCompartment name initial_size with
  | none => .error ("A compartment named " ++ name ++ " already exists")
  | some (m, c) => .ok ({ dm with model := m }, c)

/-- `add_species(name, compartment_name, initial_concentration)` run on the
selected data model.  An empty `compartment_name` defaults to the first
compartment, creating a unit compartment named `compartment` when the model
has none; creation failure raises `ValueError`. -/
def add_species_on (name compartment_name : String)
    (initial_concentration : Rat) (dm : CDataModel) :
    Except String (CDataModel × CMetab) :=
  let m0 :=
    if compartment_name = "" && dm.model.compartments.isEmpty then
      match dm.model.createCompartment "compartment" 1 with
      | some (m, _) => m
      | none => dm.model
    else dm.model
  let cname :=
    if compartment_name = "" then
      match m0.compartments.head? with
      | some c => c.objectName
      | none => ""
    else compartment_name
  match m0.createMetabolite name cname initial_concentration with
  | none =>
    .error ("A species named " ++ name ++ " already exists in compartment "
      ++ cname)
  | some (m, mb) => .ok ({ dm with model := m }, mb)

/-- `add_parameter(name, initial_value)` run on the selected data model. -/
def add_parameter_on (name : String) (initial_value : Rat)
    (dm : CDataModel) : Except String (CDataModel × CModelValue) :=
  match dm.model.createModelValue name initial_value with
  | none => .error ("A global parameter named " ++ name ++ " already exists")
  | some (m, mv) => .ok ({ dm with model := m }, mv)

/-- `add_event(name, trigger, assignments)` run on the selected data model:
create the event (`ValueError` on a duplicate name), translate the trigger
with `_replace_names_with_cns(.., model=dm)`, and add one assignment per
pair whose target resolves in the object directory, logging a warning and
skipping the others.  The engine stores the target's common name; reading it
back yields the target object's display name, which is what the assignment
record keeps here. -/
def add_event_on (name trigger : String) (assignments : List (String × String))
    (dm : CDataModel) : Except String (CDataModel × CEvent × List String) :=
  match dm.model.createEvent name with
  | none => .error ("An Event named " ++ name ++ " already exists")
  | some (m, _) =>
    let step := fun (acc : List CEventAssignment × List String)
        (a : String × String) =>
      match dm.findObjectByDisplayName a.1 with
      | none =>
        (acc.1, acc.2 ++ ["Couldn't resolve target for event assignment "
          ++ a.1 ++ ", skipping."])
      | some target =>
        (acc.1 ++ [⟨some target.displayName, _replace_names_with_cns dm a.2⟩],
          acc.2)
    let built := assignments.foldl step ([], [])
    let ev : CEvent :=
      { objectName := name
        triggerExpressionRaw := _replace_names_with_cns dm trigger
        delayExpressionRaw := ""
        assignments := built.1
        key := "Event_" ++ name }
    let newEvents := m.events.map (fun e => if e.objectName == name then ev else e)
    let m' := { m with events := newEvents }
    .ok ({ dm with model := m' }, ev, built.2)

/-! ## The `model` keyword argument

Every accessor reads `dm = kwargs.get('model', model_io.get_current_model())`.
Each wrapper below takes the function's keyword arguments and the process
state, selects the working data model exactly that way, and calls the
corresponding `*_on` function.  The getters whose rows translate expressions
without an explicit `model=` argument additionally pass the current model to
their translator (see `speciesRecord`, `compartmentRecord`,
`parameterRecord`). -/

/-- Keyword arguments recognised by `get_species`. -/
structure GetSpeciesKwargs where
  model : Option CDataModel
  name : Option String
  compartment : Option String
  type : Option String

/-- Keyword arguments carrying only `model`. -/
structure ModelKwargs where
  model : Option CDataModel

/-- Keyword arguments recognised by `get_events`, `get_plots` and
`get_reactions`: `model` and the `name` filter. -/
structure NameKwargs where
  model : Option CDataModel
  name : Option String

/-- Keyword arguments recognised by `get_compartments`. -/
structure GetCompartmentsKwargs where
  model : Option CDataModel
  name : Option String
  type : Option String

/-- Keyword arguments recognised by `get_parameters`. -/
structure GetParametersKwargs where
  model : Option CDataModel
  name : Option String
  type : Option String
  unit : Option String

/-- `get_species(name, **kwargs)`. -/
def get_species (name : Option String) (kw : GetSpeciesKwargs)
    (st : ProcessState) : Option (List (String × SpeciesData)) :=
  let dm := kw.model.getD (get_current_model st)
  get_species_on dm (get_current_model st) name kw.name kw.compartment kw.type

/-- `get_events(name, **kwargs)`. -/
def get_events (name : Option String) (kw : NameKwargs)
    (st : ProcessState) : Option (List (String × EventData)) :=
  let dm := kw.model.getD (get_current_model st)
  get_events_on dm name kw.name

/-- `get_plots(name, **kwargs)`. -/
def get_plots (name : Option String) (kw : NameKwargs)
    (st : ProcessState) : Option (List (String × PlotData)) :=
  let dm := kw.model.getD (get_current_model st)
  get_plots_on dm name kw.name

/-- `get_compartments(name, **kwargs)`. -/
def get_compartments (name : Option String) (kw : GetCompartmentsKwargs)
    (st : ProcessState) : Option (List (String × CompartmentData)) :=
  let dm := kw.model.getD (get_current_model st)
  get_compartments_on dm (get_current_model st) name kw.name kw.type

/-- `get_parameters(name, **kwargs)`. -/
def get_parameters (name : Option String) (kw : GetParametersKwargs)
    (st : ProcessState) : Option (List (String × ParameterData)) :=
  let dm := kw.model.getD (get_current_model st)
  get_parameters_on dm (get_current_model st) name kw.name kw.type kw.unit

/-- `remove_species(name, **kwargs)`. -/
def remove_species (name : String) (kw : ModelKwargs) (st : ProcessState) :
    CDataModel × List String :=
  remove_species_on name (kw.model.getD (get_current_model st))

/-- `remove_parameter(name, **kwargs)`. -/
def remove_parameter (name : String) (kw : ModelKwargs) (st : ProcessState) :
    CDataModel × List String :=
  remove_parameter_on name (kw.model.getD (get_current_model st))

/-- `remove_compartment(name, **kwargs)`. -/
def remove_compartment (name : String) (kw : ModelKwargs) (st : ProcessState) :
    CDataModel × List String :=
  remove_compartment_on name (kw.model.getD (get_current_model st))

/-- `remove_event(name, **kwargs)`. -/
def remove_event (name : String) (kw : ModelKwargs) (st : ProcessState) :
    CDataModel × List String :=
  remove_event_on name (kw.model.getD (get_current_model st))

/-- `remove_plot(name, **kwargs)`. -/
def remove_plot (name : String) (kw : ModelKwargs) (st : ProcessState) :
    CDataModel × List String :=
  remove_plot_on name (kw.model.getD (get_current_model st))

/-- `remove_reaction(name, **kwargs)`. -/
def remove_reaction (name : String) (kw : ModelKwargs) (st : ProcessState) :
    CDataModel × List String :=
  remove_reaction_on name (kw.model.getD (get_current_model st))

/-- `add_compartment(name, initial_size, **kwargs)`. -/
def add_compartment (name : String) (initial_size : Rat) (kw : ModelKwargs)
    (st : ProcessState) : Except String (CDataModel × CCompartment) :=
  add_compartment_on name initial_size (kw.model.getD (get_current_model st))

/-- `add_species(name, compartment_name, initial_concentration, **kwargs)`. -/
def add_species (name compartment_name : String) (initial_concentration : Rat)
    (kw : ModelKwargs) (st : ProcessState) :
    Except String (CDataModel × CMetab) :=
  add_species_on name compartment_name initial_concentration
    (kw.model.getD (get_current_model st))

/-- `add_parameter(name, initial_value, **kwargs)`. -/
def add_parameter (name : String) (initial_value : Rat) (kw : ModelKwargs)
    (st : ProcessState) : Except String (CDataModel × CModelValue) :=
  add_parameter_on name initial_value (kw.model.getD (get_current_model st))

/-- `add_event(name, trigger, assignments, **kwargs)`. -/
def add_event (name trigger : String) (assignments : List (String × String))
    (kw : ModelKwargs) (st : ProcessState) :
    Except String (CDataModel × CEvent × List String) :=
  add_event_on name trigger assignments (kw.model.getD (get_current_model st))

/-- `get_reactions(name, **kwargs)`. -/
def get_reactions (name : Option String) (kw : NameKwargs)
    (st : ProcessState) : Option (List (String × ReactionData)) :=
  let dm := kw.model.getD (get_current_model st)
  get_reactions_on dm name kw.name

/-! ## Spatial time-course reshaping (`compartment_array_tools.py`) -/

/-- Python `name.find(c)`: first index or `-1`. -/
def pyFindChar (s : String) (c : Char) : Int := pyFind s.data c 0

/-- Python `name.rfind(c)`: last index or `-1`. -/
def pyRfindChar (s : String) (c : Char) : Int :=
  match charIdx c s.data.reverse with
  | some i => ((s.data.length : Int) - 1 - (i : Int))
  | none => -1

/-- Python slice `cs[a:b]` with general (possibly negative) bounds. -/
def pySliceGen (cs : List Char) (a b : Int) : List Char :=
  let n : Int := cs.length
  let a' := if a < 0 then max 0 (n + a) else min a n
  let b' := if b < 0 then max 0 (n + b) else min b n
  (cs.drop a'.toNat).take (b'.toNat - a'.toNat)

/-- Python `int(s)`; a parse failure (`ValueError`) is `none`. -/
def pyInt (s : String) : Option Int := s.toInt?

/-- The per-name work of `_split_ranges`: parse `stem[x,y]` and extend the
accumulated x-index, y-index and stem lists, skipping values already
present. -/
def splitRangesStep (acc : List Int × List Int × List String)
    (name : String) : Option (List Int × List Int × List String) :=
  let cs := name.data
  let first := pyFindChar name '['
  let last := pyRfindChar name ']'
  let pre := String.mk (pySliceGen cs 0 first)
  let coords := String.mk (pySliceGen cs (first + 1) last)
  let comma := pyFindChar coords ','
  match pyInt (String.mk (pySliceGen coords.data 0 comma)),
      pyInt (String.mk (pySliceGen coords.data (comma + 1) coords.data.length)) with
  | some x, some y =>
    let xs := if acc.1.contains x then acc.1 else acc.1 ++ [x]
    let ys := if acc.2.1.contains y then acc.2.1 else acc.2.1 ++ [y]
    let ps := if acc.2.2.contains pre then acc.2.2 else acc.2.2 ++ [pre]
    some (xs, ys, ps)
  | _, _ => none

/-- `_split_ranges(names)` of `compartment_array_tools.py`: the distinct x
indices, y indices and name stems of compartment names `stem[x,y]`, in
first-appearance order; a malformed coordinate (Python `ValueError` from
`int()`) is `none`. -/
def _split_ranges (names : List String) :
    Option (List Int × List Int × List String) :=
  names.foldlM splitRangesStep ([], [], [])

/-- The composite column key
`metab + '{' + prefix + '[{0},{1}]'.format(x, y) + '}'`. -/
def metabColumn (metab pre : String) (x y : Int) : String :=
  metab ++ "\x7b" ++ pre ++ "[" ++ toString x ++ "," ++ toString y ++ "]" ++ "\x7d"

/-- `metab_name in cur` / `cur[metab_name]` on a pandas time-course row,
modelled as an association list from column key to value. -/
def rowLookup (cur : List (String × Rat)) (col : String) : Option Rat :=
  (cur.find? fun p => p.1 == col).map Prod.snd

/-- `_extract_metabolite_data(cur, metab, prefix, x_range, y_range)` of
`compartment_array_tools.py`: the `len(x_range) × len(y_range)` grid whose
cell at `(x, y)` holds the row's value at the composite column when that
column is present in the row and NaN otherwise (`np.zeros(..) * np.nan`
leaves unassigned cells NaN; NaN is modelled as `none`). -/
def _extract_metabolite_data (cur : List (String × Rat)) (metab pre : String)
    (x_range y_range : List Int) : List (List (Option Rat)) :=
  x_range.map fun x => y_range.map fun y =>
    rowLookup cur (metabColumn metab pre x y)

/-! ## Basic facts about the string primitives -/

theorem strExt {a b : String} (h : a.data = b.data) : a = b := by
  cases a; cases b; cases h; rfl

theorem strMk_data (s : String) : String.mk s.data = s := by
  cases s; rfl

/-! ## Concrete example models shared by witnesses and counterexamples -/

/-- An empty object directory with a time value reference. -/
def egDirEmpty : CObjectDirectory :=
  ⟨fun _ => none, fun _ => none, ⟨"CN=Root,Reference=Time", "Time", false⟩⟩

/-- A model with no entities. -/
def egModelEmpty : CModel := ⟨[], [], [], [], [], "mmol", "l"⟩

/-- A data model with no entities. -/
def egDmEmpty : CDataModel := ⟨egModelEmpty, [], egDirEmpty⟩

/-- A species `X` in compartment `cell`. -/
def egMetabX : CMetab :=
  ⟨"X", "cell", .reactions, "", 1, 0, "", "", 1, 0, 0, 0, "Metabolite_0",
    "X{cell}"⟩

/-- A data model holding only the species `X`. -/
def egDmX : CDataModel :=
  ⟨{ egModelEmpty with metabs := [egMetabX] }, [], egDirEmpty⟩

/-- A reaction `r1`. -/
def egReactionR1 : CReaction :=
  ⟨"r1", "A -> B", 0, 0, "Mass action", "Reaction_0"⟩

/-- A data model holding only the reaction `r1`. -/
def egDmR : CDataModel :=
  ⟨{ egModelEmpty with reactions := [egReactionR1] }, [], egDirEmpty⟩

/-! ## C6: the spatial grid of `_extract_metabolite_data` -/

/-- **C6.**  For every time-course row, species name, compartment stem and
index lists `x_range`, `y_range`, the reshaped grid has exactly one cell per
`(x, y)` index pair — `x_range.length` rows of `y_range.length` cells — and
the cell at `(i, j)` holds the row's value at the composite column
`species{stem[x_range[i],y_range[j]]}` when that column is present in the
row, and NaN (modelled as `none`) otherwise. -/
theorem extract_metabolite_data_spec (cur : List (String × Rat))
    (metab pre : String) (x_range y_range : List Int) :
    (_extract_metabolite_data cur metab pre x_range y_range).length
      = x_range.length
    ∧ (∀ row ∈ _extract_metabolite_data cur metab pre x_range y_range,
        row.length = y_range.length)
    ∧ ∀ (i j : Nat) (xv yv : Int), x_range[i]? = some xv → y_range[j]? = some yv →
        ((_extract_metabolite_data cur metab pre x_range y_range)[i]?.bind
          fun row : List (Option Rat) => row[j]?)
          = some (rowLookup cur (metabColumn metab pre xv yv)) := by
  refine ⟨by simp [_extract_metabolite_data], ?_, ?_⟩
  · intro row hrow
    simp only [_extract_metabolite_data, List.mem_map] at hrow
    obtain ⟨x, -, rfl⟩ := hrow
    simp
  · intro i j xv yv hx hy
    simp [_extract_metabolite_data, List.getElem?_map, hx, hy]

/-- Witness for C6: a concrete row with one stored column; the `(1, 0)` cell
of the grid for `x_range = [0, 1]`, `y_range = [0]` holds the value of the
column `A{c[1,0]}`. -/
theorem extract_metabolite_data_spec_witness :
    ((([0, 1] : List Int))[1]? = some 1)
    ∧ ((([0] : List Int))[0]? = some 0)
    ∧ ((_extract_metabolite_data [("A{c[1,0]}", 5)] "A" "c" [0, 1] [0])[1]?.bind
        fun row : List (Option Rat) => row[0]?)
        = some (rowLookup [("A{c[1,0]}", 5)] (metabColumn "A" "c" 1 0)) :=
  ⟨rfl, rfl,
    (extract_metabolite_data_spec [("A{c[1,0]}", 5)] "A" "c" [0, 1] [0]).2.2
      1 0 1 0 rfl rfl⟩

/-! ## C3: `remove_reaction` removes no reaction -/

/-- **C3** (code bug).  `remove_reaction` never changes the model's reaction
list: after looking the reaction up by name and taking its key, the source
calls `model.removeEvent(key)` instead of removing the reaction, so the
reaction list is left intact for every model and name; in particular, on a
concrete model containing the reaction `r1`, `remove_reaction('r1')` leaves
`r1` in the model, contradicting the claim that the reaction is removed. -/
theorem remove_reaction_never_removes (name : String) (dm : CDataModel) :
    ((remove_reaction_on name dm).1).model.reactions = dm.model.reactions
    ∧ ((remove_reaction_on "r1" egDmR).1).model.reactions = [egReactionR1] := by
  constructor
  · unfold remove_reaction_on
    split <;> simp [CModel.removeEvent]
  · rfl

/-! ## C7: the `remove_*` functions on a missing name -/

/-- No plot in the list matches: the scan of `remove_plot` finds nothing. -/
theorem removePlotLoop_eq_none (name : String)
    (ps : List CPlotSpecification) (h : ∀ p ∈ ps, p.objectName ≠ name) :
    removePlotLoop name ps = none := by
  induction ps with
  | nil => rfl
  | cons p rest ih =>
    have hp : (p.objectName == name) = false := by
      simpa using h p (List.mem_cons_self p rest)
    simp only [removePlotLoop, hp, Bool.false_eq_true, if_false]
    rw [ih fun q hq => h q (List.mem_cons_of_mem p hq)]
    rfl

/-- **C7.**  Every `remove_*` operation, applied to a name that no element of
its kind carries, logs the corresponding warning and returns with the data
model completely unchanged. -/
theorem remove_missing_warns_and_preserves (dm : CDataModel) (name : String) :
    ((∀ mb ∈ dm.model.metabs, mb.objectName ≠ name) →
      remove_species_on name dm = (dm, ["no such metabolite " ++ name]))
    ∧ ((∀ mv ∈ dm.model.modelValues, mv.objectName ≠ name) →
      remove_parameter_on name dm = (dm, ["no such global parameter " ++ name]))
    ∧ ((∀ c ∈ dm.model.compartments, c.objectName ≠ name) →
      remove_compartment_on name dm = (dm, ["no such compartment " ++ name]))
    ∧ ((∀ ev ∈ dm.model.events, ev.objectName ≠ name) →
      remove_event_on name dm = (dm, ["no such event " ++ name]))
    ∧ ((∀ p ∈ dm.plotSpecs, p.objectName ≠ name) →
      remove_plot_on name dm = (dm, ["no such plot " ++ name]))
    ∧ ((∀ r ∈ dm.model.reactions, r.objectName ≠ name) →
      remove_reaction_on name dm = (dm, ["no such reaction " ++ name])) := by
  refine ⟨?_, ?_, ?_, ?_, ?_, ?_⟩
  · intro h
    have : dm.model.getMetabolite name = none :=
      List.find?_eq_none.mpr fun mb hmb => by simpa using h mb hmb
    simp [remove_species_on, this]
  · intro h
    have : dm.model.getModelValue name = none :=
      List.find?_eq_none.mpr fun mv hmv => by simpa using h mv hmv
    simp [remove_parameter_on, this]
  · intro h
    have : dm.model.getCompartment name = none :=
      List.find?_eq_none.mpr fun c hc => by simpa using h c hc
    simp [remove_compartment_on, this]
  · intro h
    have : dm.model.getEvent name = none :=
      List.find?_eq_none.mpr fun ev hev => by simpa using h ev hev
    simp [remove_event_on, this]
  · intro h
    simp [remove_plot_on, removePlotLoop_eq_none name dm.plotSpecs h]
  · intro h
    have : dm.model.getReaction name = none :=
      List.find?_eq_none.mpr fun r hr => by simpa using h r hr
    simp [remove_reaction_on, this]

/-- Witness for C7: on the empty model, every remover warns about the missing
name `zzz` and returns the model unchanged. -/
theorem remove_missing_warns_witness :
    remove_species_on "zzz" egDmEmpty = (egDmEmpty, ["no such metabolite zzz"])
    ∧ remove_parameter_on "zzz" egDmEmpty
        = (egDmEmpty, ["no such global parameter zzz"])
    ∧ remove_compartment_on "zzz" egDmEmpty
        = (egDmEmpty, ["no such compartment zzz"])
    ∧ remove_event_on "zzz" egDmEmpty = (egDmEmpty, ["no such event zzz"])
    ∧ remove_plot_on "zzz" egDmEmpty = (egDmEmpty, ["no such plot zzz"])
    ∧ remove_reaction_on "zzz" egDmEmpty
        = (egDmEmpty, ["no such reaction zzz"]) :=
  ⟨(remove_missing_warns_and_preserves egDmEmpty "zzz").1
      (by intro mb hmb; simp [egDmEmpty, egModelEmpty] at hmb),
    (remove_missing_warns_and_preserves egDmEmpty "zzz").2.1
      (by intro mv hmv; simp [egDmEmpty, egModelEmpty] at hmv),
    (remove_missing_warns_and_preserves egDmEmpty "zzz").2.2.1
      (by intro c hc; simp [egDmEmpty, egModelEmpty] at hc),
    (remove_missing_warns_and_preserves egDmEmpty "zzz").2.2.2.1
      (by intro ev hev; simp [egDmEmpty, egModelEmpty] at hev),
    (remove_missing_warns_and_preserves egDmEmpty "zzz").2.2.2.2.1
      (by intro p hp; simp [egDmEmpty] at hp),
    (remove_missing_warns_and_preserves egDmEmpty "zzz").2.2.2.2.2
      (by intro r hr; simp [egDmEmpty, egModelEmpty] at hr)⟩

/-! ## C4: every getter returns an indexed record set or `None` -/

/-- A build-and-continue loop is a filter followed by the row builder. -/
theorem filterMap_if_eq_map_filter {α β : Type} (f : α → β) (p : α → Bool)
    (l : List α) :
    (l.filterMap fun a => if p a then none else some (f a))
      = (l.filter fun a => !p a).map f := by
  induction l with
  | nil => rfl
  | cons a l ih => by_cases h : p a <;> simp [h, ih]

/-- **C4** (amended).  Each entity getter returns the records of the entities
that pass its filters, indexed by entity name, when at least one entity
passes — and returns `None` (not an empty record set) when none does. -/
theorem getters_indexed_or_none (dm cur : CDataModel)
    (name kwName kwCompartment kwType kwUnit : Option String) :
    (get_species_on dm cur name kwName kwCompartment kwType =
      if (dm.model.metabs.filter fun mb =>
            !speciesSkipped name kwName kwCompartment kwType
              (speciesRecord cur dm.model mb) mb.displayName) = [] then none
      else some (toIndexed SpeciesData.name
        ((dm.model.metabs.filter fun mb =>
            !speciesSkipped name kwName kwCompartment kwType
              (speciesRecord cur dm.model mb) mb.displayName).map
          (speciesRecord cur dm.model))))
    ∧ (get_events_on dm name kwName =
      if (dm.model.events.filter fun ev =>
            !nameSkipped name kwName (eventRecord dm ev).name) = [] then none
      else some (toIndexed EventData.name
        ((dm.model.events.filter fun ev =>
            !nameSkipped name kwName (eventRecord dm ev).name).map
          (eventRecord dm))))
    ∧ (get_plots_on dm name kwName =
      if (dm.plotSpecs.filter fun spec =>
            !nameSkipped name kwName (get_plot_dict dm spec).name) = [] then none
      else some (toIndexed PlotData.name
        ((dm.plotSpecs.filter fun spec =>
            !nameSkipped name kwName (get_plot_dict dm spec).name).map
          (get_plot_dict dm))))
    ∧ (get_compartments_on dm cur name kwName kwType =
      if (dm.model.compartments.filter fun comp =>
            !compartmentSkipped name kwName kwType
              (compartmentRecord cur dm.model comp)) = [] then none
      else some (toIndexed CompartmentData.name
        ((dm.model.compartments.filter fun comp =>
            !compartmentSkipped name kwName kwType
              (compartmentRecord cur dm.model comp)).map
          (compartmentRecord cur dm.model))))
    ∧ (get_parameters_on dm cur name kwName kwType kwUnit =
      if (dm.model.modelValues.filter fun mv =>
            !parameterSkipped name kwName kwType kwUnit
              (parameterRecord cur mv) mv.displayName) = [] then none
      else some (toIndexed ParameterData.name
        ((dm.model.modelValues.filter fun mv =>
            !parameterSkipped name kwName kwType kwUnit
              (parameterRecord cur mv) mv.displayName).map
          (parameterRecord cur))))
    ∧ (get_reactions_on dm name kwName =
      if (dm.model.reactions.filter fun r =>
            !nameSkipped name kwName (reactionRecord r).name) = [] then none
      else some (toIndexed ReactionData.name
        ((dm.model.reactions.filter fun r =>
            !nameSkipped name kwName (reactionRecord r).name).map
          reactionRecord))) := by
  refine ⟨?_, ?_, ?_, ?_, ?_, ?_⟩
  · simp only [get_species_on]
    rw [filterMap_if_eq_map_filter]
    by_cases h : (dm.model.metabs.filter fun mb =>
        !speciesSkipped name kwName kwCompartment kwType
          (speciesRecord cur dm.model mb) mb.displayName) = [] <;>
      simp [h]
  · simp only [get_events_on]
    rw [filterMap_if_eq_map_filter]
    by_cases h : (dm.model.events.filter fun ev =>
        !nameSkipped name kwName (eventRecord dm ev).name) = [] <;>
      simp [h]
  · simp only [get_plots_on]
    rw [filterMap_if_eq_map_filter]
    by_cases h : (dm.plotSpecs.filter fun spec =>
        !nameSkipped name kwName (get_plot_dict dm spec).name) = [] <;>
      simp [h]
  · simp only [get_compartments_on]
    rw [filterMap_if_eq_map_filter]
    by_cases h : (dm.model.compartments.filter fun comp =>
        !compartmentSkipped name kwName kwType
          (compartmentRecord cur dm.model comp)) = [] <;>
      simp [h]
  · simp only [get_parameters_on]
    rw [filterMap_if_eq_map_filter]
    by_cases h : (dm.model.modelValues.filter fun mv =>
        !parameterSkipped name kwName kwType kwUnit
          (parameterRecord cur mv) mv.displayName) = [] <;>
      simp [h]
  · simp only [get_reactions_on]
    rw [filterMap_if_eq_map_filter]
    by_cases h : (dm.model.reactions.filter fun r =>
        !nameSkipped name kwName (reactionRecord r).name) = [] <;>
      simp [h]

/-- Counterexample to C4 as stated: on a model that does contain a species,
a name filter matching no entity makes `get_species` return `None` rather
than an (empty) record set indexed by name. -/
theorem get_species_none_when_unmatched_cex :
    get_species_on egDmX egDmX (some "zzz") none none none = none
    ∧ egDmX.model.metabs ≠ [] :=
  ⟨rfl, by simp [egDmX, egModelEmpty]⟩

/-! ## C2: the `add_*` functions raise on duplicates -/

/-- A compartment `c`. -/
def egCompC : CCompartment := ⟨"c", .fixed, "", 1, "", 3, "", 1, 0, "Compartment_0"⟩

/-- A data model holding only the compartment `c`. -/
def egDmComp : CDataModel :=
  ⟨{ egModelEmpty with compartments := [egCompC] }, [], egDirEmpty⟩

/-- A global parameter `p`. -/
def egParamP : CModelValue := ⟨"p", .fixed, "", 1, "", "", 1, 0, "ModelValue_0", "p"⟩

/-- A data model holding only the parameter `p`. -/
def egDmParam : CDataModel :=
  ⟨{ egModelEmpty with modelValues := [egParamP] }, [], egDirEmpty⟩

/-- An event `e`. -/
def egEventE : CEvent := ⟨"e", "", "", [], "Event_0"⟩

/-- A data model holding only the event `e`. -/
def egDmEvent : CDataModel :=
  ⟨{ egModelEmpty with events := [egEventE] }, [], egDirEmpty⟩

/-- Counterexample to C2 as stated: `add_compartment` on a name that already
exists does not return normally after a `None`-check — it raises
`ValueError('A compartment named c already exists')`. -/
theorem add_compartment_raises_cex :
    add_compartment_on "c" 1 egDmComp
      = Except.error "A compartment named c already exists" := rfl

/-- **C2** (amended).  The `add_*` accessors signal failure by raising
`ValueError` when an element of the given name already exists (for
`add_species`, in the given compartment), while `remove_species` handles an
unresolvable name with a `None`-check that returns normally, leaving the
model unchanged. -/
theorem adders_raise_on_duplicates (dm : CDataModel) (name cname : String)
    (v : Rat) (trigger : String) (asgn : List (String × String)) :
    ((∃ c ∈ dm.model.compartments, c.objectName = name) →
      add_compartment_on name v dm
        = .error ("A compartment named " ++ name ++ " already exists"))
    ∧ ((cname ≠ "" ∧ ∃ mb ∈ dm.model.metabs,
          mb.objectName = name ∧ mb.compartmentName = cname) →
      add_species_on name cname v dm
        = .error ("A species named " ++ name
            ++ " already exists in compartment " ++ cname))
    ∧ ((∃ mv ∈ dm.model.modelValues, mv.objectName = name) →
      add_parameter_on name v dm
        = .error ("A global parameter named " ++ name ++ " already exists"))
    ∧ ((∃ ev ∈ dm.model.events, ev.objectName = name) →
      add_event_on name trigger asgn dm
        = .error ("An Event named " ++ name ++ " already exists"))
    ∧ ((∀ mb ∈ dm.model.metabs, mb.objectName ≠ name) →
      (remove_species_on name dm).1 = dm) := by
  refine ⟨?_, ?_, ?_, ?_, ?_⟩
  · rintro ⟨c, hc, hname⟩
    have hdup : dm.model.compartments.any (fun c => c.objectName == name) = true :=
      List.any_eq_true.mpr ⟨c, hc, by simp [hname]⟩
    simp [add_compartment_on, CModel.createCompartment, hdup]
  · rintro ⟨hcname, mb, hmb, hname, hcomp⟩
    have hdup : dm.model.metabs.any
        (fun mb => mb.objectName == name && mb.compartmentName == cname) = true :=
      List.any_eq_true.mpr ⟨mb, hmb, by simp [hname, hcomp]⟩
    by_cases hex : dm.model.compartments.any (fun c => c.objectName == cname) <;>
      simp [add_species_on, CModel.createMetabolite, hcname, hex, hdup]
  · rintro ⟨mv, hmv, hname⟩
    have hdup : dm.model.modelValues.any (fun mv => mv.objectName == name) = true :=
      List.any_eq_true.mpr ⟨mv, hmv, by simp [hname]⟩
    simp [add_parameter_on, CModel.createModelValue, hdup]
  · rintro ⟨ev, hev, hname⟩
    have hdup : dm.model.events.any (fun ev => ev.objectName == name) = true :=
      List.any_eq_true.mpr ⟨ev, hev, by simp [hname]⟩
    simp [add_event_on, CModel.createEvent, hdup]
  · intro h
    have : dm.model.getMetabolite name = none :=
      List.find?_eq_none.mpr fun mb hmb => by simpa using h mb hmb
    simp [remove_species_on, this]

/-- Witness for C2 (amended): the four duplicate-name errors and the normal
return of `remove_species` on concrete models. -/
theorem adders_raise_on_duplicates_witness :
    add_compartment_on "c" 2 egDmComp
      = .error ("A compartment named " ++ "c" ++ " already exists")
    ∧ add_species_on "X" "cell" 2 egDmX
      = .error ("A species named " ++ "X" ++ " already exists in compartment "
          ++ "cell")
    ∧ add_parameter_on "p" 2 egDmParam
      = .error ("A global parameter named " ++ "p" ++ " already exists")
    ∧ add_event_on "e" "Time > 1" [] egDmEvent
      = .error ("An Event named " ++ "e" ++ " already exists")
    ∧ (remove_species_on "nope" egDmX).1 = egDmX :=
  ⟨(adders_raise_on_duplicates egDmComp "c" "cell" 2 "" []).1
      ⟨egCompC, by decide, by decide⟩,
    (adders_raise_on_duplicates egDmX "X" "cell" 2 "" []).2.1
      ⟨by decide, egMetabX, by decide, by decide, by decide⟩,
    (adders_raise_on_duplicates egDmParam "p" "" 2 "" []).2.2.1
      ⟨egParamP, by decide, by decide⟩,
    (adders_raise_on_duplicates egDmEvent "e" "" 2 "Time > 1" []).2.2.2.1
      ⟨egEventE, by decide, by decide⟩,
    (adders_raise_on_duplicates egDmX "nope" "" 2 "" []).2.2.2.2
      (by decide)⟩

/-! ## C8: selection of the working data model -/

theorem cnDisplay_congr (dm dm' : CDataModel) (h : dm.dir.byCN = dm'.dir.byCN) :
    cnDisplay dm = cnDisplay dm' := by
  funext cn; simp [cnDisplay, CDataModel.getObject, h]

/-- `_replace_cns_with_names` reads its data model only through the
common-name directory. -/
theorem replace_cns_with_names_congr (dm dm' : CDataModel)
    (h : dm.dir.byCN = dm'.dir.byCN) (e : String) :
    _replace_cns_with_names dm e = _replace_cns_with_names dm' e := by
  simp [_replace_cns_with_names, cnDisplay_congr dm dm' h]

theorem speciesRecord_congr (cur cur' : CDataModel)
    (h : cur.dir.byCN = cur'.dir.byCN) (model : CModel) :
    speciesRecord cur model = speciesRecord cur' model := by
  funext metab
  simp [speciesRecord, replace_cns_with_names_congr cur cur' h]

theorem compartmentRecord_congr (cur cur' : CDataModel)
    (h : cur.dir.byCN = cur'.dir.byCN) (model : CModel) :
    compartmentRecord cur model = compartmentRecord cur' model := by
  funext comp
  simp [compartmentRecord, replace_cns_with_names_congr cur cur' h]

theorem parameterRecord_congr (cur cur' : CDataModel)
    (h : cur.dir.byCN = cur'.dir.byCN) :
    parameterRecord cur = parameterRecord cur' := by
  funext param
  simp [parameterRecord, replace_cns_with_names_congr cur cur' h]

theorem get_species_on_congr (dm cur cur' : CDataModel)
    (h : cur.dir.byCN = cur'.dir.byCN) (name kwName kwCompartment kwType : Option String) :
    get_species_on dm cur name kwName kwCompartment kwType
      = get_species_on dm cur' name kwName kwCompartment kwType := by
  simp [get_species_on, speciesRecord_congr cur cur' h]

theorem get_compartments_on_congr (dm cur cur' : CDataModel)
    (h : cur.dir.byCN = cur'.dir.byCN) (name kwName kwType : Option String) :
    get_compartments_on dm cur name kwName kwType
      = get_compartments_on dm cur' name kwName kwType := by
  simp [get_compartments_on, compartmentRecord_congr cur cur' h]

theorem get_parameters_on_congr (dm cur cur' : CDataModel)
    (h : cur.dir.byCN = cur'.dir.byCN) (name kwName kwType kwUnit : Option String) :
    get_parameters_on dm cur name kwName kwType kwUnit
      = get_parameters_on dm cur' name kwName kwType kwUnit := by
  simp [get_parameters_on, parameterRecord_congr cur cur' h]

/-- A directory resolving the common name `CN=x` to display name `d`. -/
def egDirRes (d : String) : CObjectDirectory :=
  ⟨fun _ => none,
    fun cn => if cn = "CN=x" then some ⟨"CN=x", d, false⟩ else none,
    ⟨"CN=Root,Reference=Time", "Time", false⟩⟩

/-- A current model resolving `CN=x` to `B`. -/
def egDmResB : CDataModel := ⟨egModelEmpty, [], egDirRes "B"⟩

/-- A current model resolving `CN=x` to `C`. -/
def egDmResC : CDataModel := ⟨egModelEmpty, [], egDirRes "C"⟩

/-- A current model resolving `CN=x` to `B` but with different units. -/
def egDmResB2 : CDataModel :=
  ⟨{ egModelEmpty with quantityUnit := "mol" }, [], egDirRes "B"⟩

/-- A species whose stored initial expression is the raw token `<CN=x>`. -/
def egMetabRaw : CMetab := { egMetabX with initialExpressionRaw := "<CN=x>" }

/-- A data model holding only `egMetabRaw`. -/
def egDmRaw : CDataModel :=
  ⟨{ egModelEmpty with metabs := [egMetabRaw] }, [], egDirEmpty⟩

/-- Counterexample to C8 as stated: with the *same* explicit `model` keyword
argument, `get_species` returns different results under two different
process-wide current models, because its expression columns are translated
against the current model; so the accessor's behaviour does not depend on the
selected data model alone. -/
theorem get_species_depends_on_current_cex :
    get_species none ⟨some egDmRaw, none, none, none⟩ ⟨egDmResB⟩
      ≠ get_species none ⟨some egDmRaw, none, none, none⟩ ⟨egDmResC⟩ := by
  decide

/-- **C8** (amended).  Every accessor selects its working data model as the
`model` keyword argument when one is supplied and as the process-wide current
model otherwise.  For every accessor except `get_species`,
`get_compartments` and `get_parameters` the result then depends on nothing
else; those three additionally translate their expression columns against
the process-wide current model even when an explicit model is supplied, and
depend on it only through its common-name directory. -/
theorem accessors_model_selection :
    (∀ dm st st' n kn kc kt,
        (get_current_model st).dir.byCN = (get_current_model st').dir.byCN →
        get_species n ⟨some dm, kn, kc, kt⟩ st
          = get_species n ⟨some dm, kn, kc, kt⟩ st')
    ∧ (∀ dm st st' n kn kt,
        (get_current_model st).dir.byCN = (get_current_model st').dir.byCN →
        get_compartments n ⟨some dm, kn, kt⟩ st
          = get_compartments n ⟨some dm, kn, kt⟩ st')
    ∧ (∀ dm st st' n kn kt ku,
        (get_current_model st).dir.byCN = (get_current_model st').dir.byCN →
        get_parameters n ⟨some dm, kn, kt, ku⟩ st
          = get_parameters n ⟨some dm, kn, kt, ku⟩ st')
    ∧ (∀ dm st n kn kc kt, get_species n ⟨some dm, kn, kc, kt⟩ st
        = get_species_on dm (get_current_model st) n kn kc kt)
    ∧ (∀ st n kn kc kt, get_species n ⟨none, kn, kc, kt⟩ st
        = get_species_on (get_current_model st) (get_current_model st) n kn kc kt)
    ∧ (∀ dm st n kn, get_events n ⟨some dm, kn⟩ st = get_events_on dm n kn)
    ∧ (∀ st n kn, get_events n ⟨none, kn⟩ st
        = get_events_on (get_current_model st) n kn)
    ∧ (∀ dm st n kn, get_plots n ⟨some dm, kn⟩ st = get_plots_on dm n kn)
    ∧ (∀ st n kn, get_plots n ⟨none, kn⟩ st
        = get_plots_on (get_current_model st) n kn)
    ∧ (∀ dm st n kn kt, get_compartments n ⟨some dm, kn, kt⟩ st
        = get_compartments_on dm (get_current_model st) n kn kt)
    ∧ (∀ st n kn kt, get_compartments n ⟨none, kn, kt⟩ st
        = get_compartments_on (get_current_model st) (get_current_model st) n kn kt)
    ∧ (∀ dm st n kn kt ku, get_parameters n ⟨some dm, kn, kt, ku⟩ st
        = get_parameters_on dm (get_current_model st) n kn kt ku)
    ∧ (∀ st n kn kt ku, get_parameters n ⟨none, kn, kt, ku⟩ st
        = get_parameters_on (get_current_model st) (get_current_model st) n kn kt ku)
    ∧ (∀ dm st n kn, get_reactions n ⟨some dm, kn⟩ st = get_reactions_on dm n kn)
    ∧ (∀ st n kn, get_reactions n ⟨none, kn⟩ st
        = get_reactions_on (get_current_model st) n kn)
    ∧ (∀ dm st name, remove_species name ⟨some dm⟩ st = remove_species_on name dm)
    ∧ (∀ st name, remove_species name ⟨none⟩ st
        = remove_species_on name (get_current_model st))
    ∧ (∀ dm st name, remove_parameter name ⟨some dm⟩ st = remove_parameter_on name dm)
    ∧ (∀ st name, remove_parameter name ⟨none⟩ st
        = remove_parameter_on name (get_current_model st))
    ∧ (∀ dm st name, remove_compartment name ⟨some dm⟩ st
        = remove_compartment_on name dm)
    ∧ (∀ st name, remove_compartment name ⟨none⟩ st
        = remove_compartment_on name (get_current_model st))
    ∧ (∀ dm st name, remove_event name ⟨some dm⟩ st = remove_event_on name dm)
    ∧ (∀ st name, remove_event name ⟨none⟩ st
        = remove_event_on name (get_current_model st))
    ∧ (∀ dm st name, remove_plot name ⟨some dm⟩ st = remove_plot_on name dm)
    ∧ (∀ st name, remove_plot name ⟨none⟩ st
        = remove_plot_on name (get_current_model st))
    ∧ (∀ dm st name, remove_reaction name ⟨some dm⟩ st = remove_reaction_on name dm)
    ∧ (∀ st name, remove_reaction name ⟨none⟩ st
        = remove_reaction_on name (get_current_model st))
    ∧ (∀ dm st name v, add_compartment name v ⟨some dm⟩ st = add_compartment_on name v dm)
    ∧ (∀ st name v, add_compartment name v ⟨none⟩ st
        = add_compartment_on name v (get_current_model st))
    ∧ (∀ dm st name cn v, add_species name cn v ⟨some dm⟩ st = add_species_on name cn v dm)
    ∧ (∀ st name cn v, add_species name cn v ⟨none⟩ st
        = add_species_on name cn v (get_current_model st))
    ∧ (∀ dm st name v, add_parameter name v ⟨some dm⟩ st = add_parameter_on name v dm)
    ∧ (∀ st name v, add_parameter name v ⟨none⟩ st
        = add_parameter_on name v (get_current_model st))
    ∧ (∀ dm st name tr a, add_event name tr a ⟨some dm⟩ st = add_event_on name tr a dm)
    ∧ (∀ st name tr a, add_event name tr a ⟨none⟩ st
        = add_event_on name tr a (get_current_model st)) :=
  ⟨fun dm st st' n kn kc kt h => get_species_on_congr dm _ _ h n kn kc kt,
    fun dm st st' n kn kt h => get_compartments_on_congr dm _ _ h n kn kt,
    fun dm st st' n kn kt ku h => get_parameters_on_congr dm _ _ h n kn kt ku,
    fun _ _ _ _ _ _ => rfl, fun _ _ _ _ _ => rfl,
    fun _ _ _ _ => rfl, fun _ _ _ => rfl,
    fun _ _ _ _ => rfl, fun _ _ _ => rfl,
    fun _ _ _ _ _ => rfl, fun _ _ _ _ => rfl,
    fun _ _ _ _ _ _ => rfl, fun _ _ _ _ _ => rfl,
    fun _ _ _ _ => rfl, fun _ _ _ => rfl,
    fun _ _ _ => rfl, fun _ _ => rfl,
    fun _ _ _ => rfl, fun _ _ => rfl,
    fun _ _ _ => rfl, fun _ _ => rfl,
    fun _ _ _ => rfl, fun _ _ => rfl,
    fun _ _ _ => rfl, fun _ _ => rfl,
    fun _ _ _ => rfl, fun _ _ => rfl,
    fun _ _ _ _ => rfl, fun _ _ _ => rfl,
    fun _ _ _ _ _ => rfl, fun _ _ _ _ => rfl,
    fun _ _ _ _ => rfl, fun _ _ _ => rfl,
    fun _ _ _ _ _ => rfl, fun _ _ _ _ => rfl⟩

/-- Witness for C8 (amended): two current models with the same common-name
directory give the same `get_species` result under the same explicit model
argument. -/
theorem accessors_model_selection_witness :
    get_species none ⟨some egDmRaw, none, none, none⟩ ⟨egDmResB⟩
      = get_species none ⟨some egDmRaw, none, none, none⟩ ⟨egDmResB2⟩ :=
  accessors_model_selection.1 egDmRaw ⟨egDmResB⟩ ⟨egDmResB2⟩ none none none none rfl

/-! ## Tokens of `_replace_names_with_cns` are nonempty and whitespace-free -/

theorem pyWordsAux_sound (cs : List Char) :
    ∀ cur, (∀ c ∈ cur, ¬ c.isWhitespace) →
      ∀ w ∈ pyWordsAux cur cs, w ≠ [] ∧ ∀ c ∈ w, ¬ c.isWhitespace := by
  induction cs with
  | nil =>
    intro cur hcur w hw
    simp only [pyWordsAux] at hw
    split at hw
    · cases hw
    · next h =>
      have hne : cur ≠ [] := by simpa [List.isEmpty_iff] using h
      rw [List.mem_singleton] at hw
      subst hw
      refine ⟨by simpa using hne, fun c hc => hcur c (List.mem_reverse.mp hc)⟩
  | cons c rest ih =>
    intro cur hcur w hw
    simp only [pyWordsAux] at hw
    by_cases hws : c.isWhitespace
    · rw [if_pos hws] at hw
      split at hw
      · exact ih [] (by simp) w hw
      · next h =>
        have hne : cur ≠ [] := by simpa [List.isEmpty_iff] using h
        rcases List.mem_cons.mp hw with hw | hw
        · subst hw
          refine ⟨by simpa using hne, fun d hd => hcur d (List.mem_reverse.mp hd)⟩
        · exact ih [] (by simp) w hw
    · rw [if_neg hws] at hw
      refine ih (c :: cur) ?_ w hw
      intro d hd
      rcases List.mem_cons.mp hd with rfl | hd
      · exact hws
      · exact hcur d hd

/-- Every token of `_replace_names_with_cns` is a nonempty, whitespace-free
word. -/
theorem exprTokens_clean (e : String) :
    ∀ w ∈ exprTokens e, w ≠ "" ∧ ∀ c ∈ w.data, ¬ c.isWhitespace := by
  intro w hw
  simp only [exprTokens, pyWords, List.mem_map] at hw
  obtain ⟨l, hl, rfl⟩ := hw
  obtain ⟨h1, h2⟩ := pyWordsAux_sound _ [] (by simp) l hl
  exact ⟨fun h => h1 (congrArg String.data h), h2⟩

theorem stripBraces_data_subset (w : String) :
    ∀ c ∈ (stripBraces w).data, c ∈ w.data := by
  intro c hc
  unfold stripBraces at hc
  split at hc
  · simp only [pyDropEnds] at hc
    exact (List.drop_suffix 1 w.data).subset ((List.dropLast_prefix _).subset hc)
  · exact hc

/-- Brace stripping keeps a whitespace-free token whitespace-free. -/
theorem stripBraces_clean (w : String)
    (h : ∀ c ∈ w.data, ¬ c.isWhitespace) :
    ∀ c ∈ (stripBraces w).data, ¬ c.isWhitespace :=
  fun c hc => h c (stripBraces_data_subset w c hc)

/-! ## C10: a display name with a space is never looked up -/

/-- The object directory with one display name removed. -/
def removeName (dm : CDataModel) (name : String) : CDataModel :=
  let f := fun w => if w = name then none else dm.dir.byName w
  { dm with dir := ⟨f, dm.dir.byCN, dm.dir.valueRef⟩ }

theorem foldl_congr_mem {α β : Type} (l : List α) (f g : β → α → β)
    (h : ∀ b, ∀ a ∈ l, f b a = g b a) :
    ∀ init, l.foldl f init = l.foldl g init := by
  induction l with
  | nil => intro init; rfl
  | cons a l ih =>
    intro init
    rw [List.foldl_cons, List.foldl_cons, h init a (List.mem_cons_self a l)]
    exact ih (fun b a2 ha2 => h b a2 (List.mem_cons_of_mem a ha2)) _

/-- **C10.**  `_replace_names_with_cns` looks up only whitespace-free words:
every token it submits to the object directory is whitespace-free (first
conjunct), and consequently the translation of every expression is unchanged
when a display name containing a space — even one that resolves — is removed
from the directory (second conjunct): such a name can never be replaced by
its symbolic reference. -/
theorem space_names_never_replaced (dm : CDataModel) (name : String)
    (hsp : ' ' ∈ name.data) (e : String) :
    (∀ w ∈ exprTokens e, ∀ c ∈ (stripBraces w).data, ¬ c.isWhitespace)
    ∧ _replace_names_with_cns dm e
        = _replace_names_with_cns (removeName dm name) e := by
  have hclean : ∀ w ∈ exprTokens e, ∀ c ∈ (stripBraces w).data, ¬ c.isWhitespace :=
    fun w hw => stripBraces_clean w (exprTokens_clean e w hw).2
  refine ⟨hclean, ?_⟩
  unfold _replace_names_with_cns
  congr 1
  refine foldl_congr_mem _ _ _ (fun acc w hw => ?_) ""
  have hne : stripBraces w ≠ name := by
    intro heq
    exact hclean w hw ' ' (heq ▸ hsp) (by decide)
  have hres : resolveToken (removeName dm name) (stripBraces w)
      = resolveToken dm (stripBraces w) := by
    simp [resolveToken, CDataModel.findObjectByDisplayName, removeName, hne]
  simp only [hres]

/-- An object whose display name `a b` contains a space. -/
def egObjSpace : CObject := ⟨"CN=ab", "a b", false⟩

/-- A directory in which the spaced name `a b` resolves. -/
def egDirSpace : CObjectDirectory :=
  ⟨fun n => if n = "a b" then some egObjSpace else none,
    fun cn => if cn = "CN=ab" then some egObjSpace else none,
    ⟨"CN=Root,Reference=Time", "Time", false⟩⟩

/-- A data model in which the spaced name `a b` resolves. -/
def egDmSpace : CDataModel := ⟨egModelEmpty, [], egDirSpace⟩

/-- Witness for C10: the name `a b` resolves in the directory, yet removing
it does not change the translation of `{a b}`. -/
theorem space_names_never_replaced_witness :
    (' ' ∈ "a b".data)
    ∧ egDmSpace.findObjectByDisplayName "a b" = some egObjSpace
    ∧ _replace_names_with_cns egDmSpace "{a b}"
        = _replace_names_with_cns (removeName egDmSpace "a b") "{a b}" :=
  ⟨by decide, rfl,
    (space_names_never_replaced egDmSpace "a b" (by decide) "{a b}").2⟩

/-! ## C9: `_split_by_cn` on a `<CN=` marker with no closing `>` -/

/-- On the input `"<CN=a"` the loop body always returns to position `0`:
`find('>', 0)` is `-1`, so the new position is `-1 + 1 = 0`. -/
theorem splitStep_loops (r : List String) (cur : List Char) :
    splitStep "<CN=a".data ⟨r, cur, 0⟩ = Sum.inl ⟨r ++ ["CN="], [], 0⟩ := rfl

/-- **C9** (code bug).  On the input `"<CN=a"` — which contains the opening
marker `<CN=` but no subsequent `>` — the `while` loop of `_split_by_cn`
never returns, whatever amount of fuel it is given: each iteration appends
`"CN="` to the result and resets the position to `find('>', pos) + 1 = 0`.
The function therefore does not terminate on every input. -/
theorem split_by_cn_diverges :
    (∀ fuel r, splitByCnFuel "<CN=a".data fuel ⟨r, [], 0⟩ = none)
    ∧ _split_by_cn "<CN=a" = none := by
  have key : ∀ fuel r, splitByCnFuel "<CN=a".data fuel ⟨r, [], 0⟩ = none := by
    intro fuel
    induction fuel with
    | zero => intro r; rfl
    | succ n ih =>
      intro r
      simp only [splitByCnFuel, splitStep_loops]
      exact ih (r ++ ["CN="])
  exact ⟨key, key _ []⟩

/-! ## C5: the translation of `_replace_names_with_cns`, token by token -/

theorem data_space : (" " : String).data = [' '] := rfl

theorem data_empty : ("" : String).data = [] := rfl

theorem str_append_assoc (a b c : String) : a ++ b ++ c = a ++ (b ++ c) :=
  strExt (by simp [String.data_append, List.append_assoc])

theorem str_nil_append (s : String) : "" ++ s = s :=
  strExt (by simp [String.data_append, data_empty])

theorem str_append_nil (s : String) : s ++ "" = s :=
  strExt (by simp [String.data_append, data_empty])

/-- The image of one token under `_replace_names_with_cns`: a token that
resolves in the object directory becomes `<CN>` (the model object standing
for its value reference), every other token is kept with its optional braces
removed. -/
def tokenImage (dm : CDataModel) (word : String) : String :=
  match resolveToken dm (stripBraces word) with
  | some obj => "<" ++ obj.cn ++ ">"
  | none => stripBraces word

/-- Words joined by single spaces. -/
def spaceJoin : List String → String
  | [] => ""
  | [w] => w
  | w :: w2 :: rest => w ++ " " ++ spaceJoin (w2 :: rest)

/-- Words each preceded by one space. -/
def preSep : List String → String
  | [] => ""
  | w :: rest => " " ++ w ++ preSep rest

theorem preSep_eq_spaceJoin (l : List String) (h : l ≠ []) :
    preSep l = " " ++ spaceJoin l := by
  induction l with
  | nil => cases h rfl
  | cons w rest ih =>
    cases rest with
    | nil => simp [preSep, spaceJoin, str_append_nil]
    | cons w2 r2 =>
      rw [preSep, ih (by simp), spaceJoin]
      rw [str_append_assoc, str_append_assoc]

theorem pyStrip_cons_space (s : String) : pyStrip (" " ++ s) = pyStrip s := by
  have h : (" " ++ s).data = ' ' :: s.data := by
    rw [String.data_append, data_space]; rfl
  have hws : (' '.isWhitespace) = true := by decide
  simp [pyStrip, pyStripChars, h, List.dropWhile_cons, hws]

/-- The fold of `_replace_names_with_cns` accumulates one space-led image
per token. -/
theorem names_fold_eq (dm : CDataModel) (ts : List String) :
    ∀ acc, ts.foldl (fun acc word =>
        let w := stripBraces word
        match resolveToken dm w with
        | some obj => acc ++ " <" ++ obj.cn ++ ">"
        | none => acc ++ " " ++ w) acc
      = acc ++ preSep (ts.map (tokenImage dm)) := by
  induction ts with
  | nil => intro acc; simp [preSep, str_append_nil]
  | cons w rest ih =>
    intro acc
    rw [List.foldl_cons, ih]
    simp only [List.map_cons, preSep]
    cases hres : resolveToken dm (stripBraces w) with
    | some obj =>
      simp only [tokenImage, hres]
      apply strExt
      simp [String.data_append, List.append_assoc]
    | none =>
      simp only [tokenImage, hres]
      apply strExt
      simp [String.data_append, List.append_assoc]

/-- **C5.**  `_replace_names_with_cns` maps each whitespace-delimited,
optionally brace-wrapped token of the expression independently and in the
original order: a token that resolves in the object directory is replaced by
its bracketed symbolic reference `<CN>` (the model object standing for its
value reference), and every other token is reproduced with only its optional
braces removed; the images are joined by single spaces and stripped. -/
theorem replace_names_with_cns_tokenwise (dm : CDataModel) (e : String) :
    _replace_names_with_cns dm e
      = pyStrip (spaceJoin ((exprTokens e).map (tokenImage dm))) := by
  unfold _replace_names_with_cns
  rw [names_fold_eq dm (exprTokens e) ""]
  cases hts : exprTokens e with
  | nil => simp [preSep, spaceJoin, str_nil_append]
  | cons w rest =>
    rw [str_nil_append, preSep_eq_spaceJoin _ (by simp), pyStrip_cons_space]

/-! ## C1: the round trip through `_split_by_cn`

The intermediate expression produced by `_replace_names_with_cns` on a
well-formed input is a space-separated sequence of `<CN>` references and
operator words; `MidTok` describes one such intermediate token. -/

/-- One intermediate token: a symbolic reference `<CN>`, or an operator word
(an operator character, optionally merged with a following `=`). -/
inductive MidTok
  | cnTok (cs : List Char)
  | opTok (c : Char) (withEq : Bool)

/-- The characters of one intermediate token. -/
def encTok : MidTok → List Char
  | .cnTok cs => '<' :: cs ++ ['>']
  | .opTok c false => [c]
  | .opTok c true => [c, '=']

/-- Character lists joined by single spaces. -/
def sepChars : List (List Char) → List Char
  | [] => []
  | [x] => x
  | x :: y :: rest => x ++ ' ' :: sepChars (y :: rest)

/-- The characters of a space-separated intermediate token sequence. -/
def encSep (ts : List MidTok) : List Char := sepChars (ts.map encTok)

/-- The word `_split_by_cn` recovers from one intermediate token: a `<CN>`
token loses its angle brackets, an operator word is kept. -/
def tokWord : MidTok → String
  | .cnTok cs => String.mk cs
  | .opTok c false => String.mk [c]
  | .opTok c true => String.mk [c, '=']

/-- Well-formedness of an intermediate token: a common name has the `CN=`
head and no `>` inside; an operator word is built on an operator
character. -/
def MidTokOk : MidTok → Prop
  | .cnTok cs => cs.take 3 = ['C', 'N', '='] ∧ '>' ∉ cs
  | .opTok c _ => c ∈ opChars

theorem take3_shape {cs : List Char} (h : cs.take 3 = ['C', 'N', '=']) :
    3 ≤ cs.length := by
  have := congrArg List.length h
  simpa [List.length_take] using this

theorem charIdx_append_self (c : Char) (l B : List Char) (hl : c ∉ l) :
    charIdx c (l ++ c :: B) = some l.length := by
  induction l with
  | nil => simp [charIdx]
  | cons a l ih =>
    have ha : ¬ (a = c) := fun e => hl (e ▸ List.mem_cons_self a l)
    simp [charIdx, ha, ih fun hm => hl (List.mem_cons_of_mem a hm)]

theorem getAt_append (A : List Char) (c : Char) (l : List Char)
    (h : A.length < (A ++ c :: l).length) :
    (A ++ c :: l).get ⟨A.length, h⟩ = c := by
  induction A with
  | nil => rfl
  | cons a A ih => exact ih (by simpa using h)

theorem getAt_eq (l : List Char) (i : Nat) (h : i < l.length) (c : Char)
    (he : l[i]? = some c) : l.get ⟨i, h⟩ = c := by
  rw [List.get_eq_getElem]
  rw [List.getElem?_eq_getElem h] at he
  exact Option.some_injective _ he

/-- The `<CN=` branch of the `_split_by_cn` loop: one iteration consumes the
whole `<..>` reference, appends the bracket-free common name to the result,
and discards the pending current word. -/
theorem splitStep_cn (A cs B : List Char) (r : List String)
    (h3 : cs.take 3 = ['C', 'N', '=']) (hgt : '>' ∉ cs) :
    splitStep (A ++ '<' :: (cs ++ '>' :: B)) ⟨r, [], A.length⟩
      = Sum.inl ⟨r ++ [String.mk cs], [], A.length + cs.length + 2⟩ := by
  have hcs3 : 3 ≤ cs.length := take3_shape h3
  have hn : (A ++ '<' :: (cs ++ '>' :: B)).length
      = A.length + cs.length + B.length + 2 := by
    simp only [List.length_append, List.length_cons]; omega
  have hpos : A.length < (A ++ '<' :: (cs ++ '>' :: B)).length := by omega
  have hget : (A ++ '<' :: (cs ++ '>' :: B)).get ⟨A.length, hpos⟩ = '<' :=
    getAt_append A '<' (cs ++ '>' :: B) hpos
  have hdrop : (A ++ '<' :: (cs ++ '>' :: B)).drop A.length
      = '<' :: (cs ++ '>' :: B) := List.drop_left' rfl
  have htake : ((A ++ '<' :: (cs ++ '>' :: B)).drop A.length).take 4
      = ['<', 'C', 'N', '='] := by
    rw [hdrop, List.take_succ_cons, List.take_append_of_le_length hcs3, h3]
  have hmore : A.length + 4 < (A ++ '<' :: (cs ++ '>' :: B)).length := by omega
  have hfind : pyFind (A ++ '<' :: (cs ++ '>' :: B)) '>' A.length
      = ((A.length + (cs.length + 1) : Nat) : Int) := by
    unfold pyFind
    rw [hdrop]
    have : charIdx '>' ('<' :: (cs ++ '>' :: B)) = some (cs.length + 1) := by
      have hlt : ¬ (('<' : Char) = '>') := by decide
      simp [charIdx, hlt, charIdx_append_self '>' cs B hgt]
    rw [this]
  have hdrop1 : (A ++ '<' :: (cs ++ '>' :: B)).drop (A.length + 1)
      = cs ++ '>' :: B := by
    rw [List.append_cons A '<' (cs ++ '>' :: B)]
    exact List.drop_left' (by simp)
  have hslice : pySliceTo (A ++ '<' :: (cs ++ '>' :: B)) (A.length + 1)
      ((A.length + (cs.length + 1) : Nat) : Int) = cs := by
    unfold pySliceTo
    rw [if_neg (by omega), hdrop1]
    have harith : ((A.length + (cs.length + 1) : Nat) : Int).toNat - (A.length + 1)
        = cs.length := by omega
    rw [harith, List.take_left' rfl]
  have htonat : (((A.length + (cs.length + 1) : Nat) : Int) + 1).toNat
      = A.length + cs.length + 2 := by omega
  have htake3 : (cs ++ '>' :: B).take 3 = ['C', 'N', '='] := by
    rw [List.take_append_of_le_length hcs3, h3]
  simp only [splitStep, dif_pos hpos, hget, hfind, hslice, htonat, hmore,
    htake, htake3, and_true, true_and, if_pos, hdrop]
  simp [htake3]

/-- A space under the scan position: the position advances, nothing else
changes. -/
theorem splitStep_space (A B : List Char) (r : List String) (cur : List Char) :
    splitStep (A ++ ' ' :: B) ⟨r, cur, A.length⟩
      = Sum.inl ⟨r, cur, A.length + 1⟩ := by
  have hpos : A.length < (A ++ ' ' :: B).length := by
    simp only [List.length_append, List.length_cons]; omega
  have hget : (A ++ ' ' :: B).get ⟨A.length, hpos⟩ = ' ' :=
    getAt_append A ' ' B hpos
  have hne : ¬ ((' ' : Char) = '<') := by decide
  have hop : ¬ ((' ' : Char) ∈ opChars) := by decide
  simp only [splitStep, dif_pos hpos, hget]
  rw [if_neg (by simp [hne]), if_neg hop, if_neg (by simp)]

/-- The scan position at the end of the input with no pending current word:
the loop returns the accumulated result. -/
theorem splitStep_end (cs : List Char) (r : List String) :
    splitStep cs ⟨r, [], cs.length⟩ = Sum.inr r := by
  simp [splitStep]

/-- A single operator character under the scan position, followed by a space
or the end of the input: one iteration emits the operator as its own word. -/
theorem splitStep_op_single (A B : List Char) (r : List String) (c : Char)
    (hc : c ∈ opChars) (hB : B = [] ∨ ∃ B2, B = ' ' :: B2) :
    splitStep (A ++ c :: B) ⟨r, [], A.length⟩
      = Sum.inl ⟨r ++ [String.mk [c]], [], A.length + 1⟩ := by
  have hpos : A.length < (A ++ c :: B).length := by
    simp only [List.length_append, List.length_cons]; omega
  have hget : (A ++ c :: B).get ⟨A.length, hpos⟩ = c := getAt_append A c B hpos
  have hdrop : (A ++ c :: B).drop A.length = c :: B := List.drop_left' rfl
  have hncond : ¬ (c = '<' ∧ A.length + 4 < (A ++ c :: B).length
      ∧ ((A ++ c :: B).drop A.length).take 4 = ['<', 'C', 'N', '=']) := by
    rcases hB with rfl | ⟨B2, rfl⟩
    · rintro ⟨-, hmore, -⟩
      simp only [List.length_append, List.length_cons, List.length_nil] at hmore
      omega
    · rintro ⟨-, -, htk⟩
      rw [hdrop] at htk
      simp [List.take] at htk
  unfold splitStep
  rw [dif_pos hpos]
  simp only [hget]
  rw [if_neg hncond, if_pos hc]
  rcases hB with rfl | ⟨B2, rfl⟩
  · have h2 : ¬ (A.length + 1 < (A ++ c :: []).length) := by
      simp only [List.length_append, List.length_cons, List.length_nil]; omega
    rw [dif_neg h2]
    simp
  · have h2 : A.length + 1 < (A ++ c :: ' ' :: B2).length := by
      simp only [List.length_append, List.length_cons]; omega
    rw [dif_pos h2]
    have hget2 : (A ++ c :: ' ' :: B2).get ⟨A.length + 1, h2⟩ = ' ' := by
      apply getAt_eq
      rw [List.getElem?_append_right (by omega : A.length ≤ A.length + 1)]
      have harith : A.length + 1 - A.length = 1 := by omega
      rw [harith]
      simp
    rw [hget2, if_neg (by decide)]
    simp

/-- An operator character merged with a following `=`: one iteration emits
the two-character operator word and advances past both characters. -/
theorem splitStep_op_eq (A B : List Char) (r : List String) (c : Char)
    (hc : c ∈ opChars) :
    splitStep (A ++ c :: '=' :: B) ⟨r, [], A.length⟩
      = Sum.inl ⟨r ++ [String.mk [c, '=']], [], A.length + 2⟩ := by
  have hpos : A.length < (A ++ c :: '=' :: B).length := by
    simp only [List.length_append, List.length_cons]; omega
  have hget : (A ++ c :: '=' :: B).get ⟨A.length, hpos⟩ = c :=
    getAt_append A c ('=' :: B) hpos
  have hdrop : (A ++ c :: '=' :: B).drop A.length = c :: '=' :: B :=
    List.drop_left' rfl
  have hncond : ¬ (c = '<' ∧ A.length + 4 < (A ++ c :: '=' :: B).length
      ∧ ((A ++ c :: '=' :: B).drop A.length).take 4 = ['<', 'C', 'N', '=']) := by
    rintro ⟨-, -, htk⟩
    rw [hdrop] at htk
    simp [List.take] at htk
  unfold splitStep
  rw [dif_pos hpos]
  simp only [hget]
  rw [if_neg hncond, if_pos hc]
  have h2 : A.length + 1 < (A ++ c :: '=' :: B).length := by
    simp only [List.length_append, List.length_cons]; omega
  rw [dif_pos h2]
  have hget2 : (A ++ c :: '=' :: B).get ⟨A.length + 1, h2⟩ = '=' := by
    apply getAt_eq
    rw [List.getElem?_append_right (by omega : A.length ≤ A.length + 1)]
    have harith : A.length + 1 - A.length = 1 := by omega
    rw [harith]
    simp
  rw [hget2, if_pos rfl]
  simp

/-- One iteration of the `_split_by_cn` loop consumes one well-formed
intermediate token and emits its word. -/
theorem splitStep_tok (A B : List Char) (r : List String) (t : MidTok)
    (hok : MidTokOk t) (hB : B = [] ∨ ∃ B2, B = ' ' :: B2) :
    splitStep (A ++ (encTok t ++ B)) ⟨r, [], A.length⟩
      = Sum.inl ⟨r ++ [tokWord t], [], A.length + (encTok t).length⟩ := by
  cases t with
  | cnTok cs =>
    obtain ⟨h3, hgt⟩ := hok
    have hl : A ++ (encTok (.cnTok cs) ++ B) = A ++ '<' :: (cs ++ '>' :: B) := by
      simp [encTok]
    rw [hl, splitStep_cn A cs B r h3 hgt]
    have hlen : (encTok (.cnTok cs)).length = cs.length + 2 := by simp [encTok]
    rw [hlen]
    have : A.length + cs.length + 2 = A.length + (cs.length + 2) := by omega
    rw [this]
    rfl
  | opTok c b =>
    cases b with
    | false =>
      have hl : A ++ (encTok (.opTok c false) ++ B) = A ++ c :: B := by
        simp [encTok]
      rw [hl, splitStep_op_single A B r c hok hB]
      rfl
    | true =>
      have hl : A ++ (encTok (.opTok c true) ++ B) = A ++ c :: '=' :: B := by
        simp [encTok]
      rw [hl, splitStep_op_eq A B r c hok]
      rfl

theorem encTok_length_pos (t : MidTok) : 1 ≤ (encTok t).length := by
  cases t with
  | cnTok cs => simp [encTok]
  | opTok c b => cases b <;> simp [encTok]

theorem splitByCnFuel_step (cs : List Char) (fuel : Nat) (s s' : SplitState)
    (h : splitStep cs s = Sum.inl s') :
    splitByCnFuel cs (fuel + 1) s = splitByCnFuel cs fuel s' := by
  simp [splitByCnFuel, h]

theorem splitByCnFuel_done (cs : List Char) (fuel : Nat) (s : SplitState)
    (r : List String) (h : splitStep cs s = Sum.inr r) :
    splitByCnFuel cs (fuel + 1) s = some r := by
  simp [splitByCnFuel, h]

/-- Running the `_split_by_cn` loop over a well-formed, space-separated
intermediate token sequence appended after an already-scanned prefix
recovers exactly the token words. -/
theorem splitRun : ∀ (ts : List MidTok), (∀ t ∈ ts, MidTokOk t) →
    ∀ (A : List Char) (r : List String) (fuel : Nat),
      (encSep ts).length + 1 ≤ fuel →
      splitByCnFuel (A ++ encSep ts) fuel ⟨r, [], A.length⟩
        = some (r ++ ts.map tokWord) := by
  intro ts
  induction ts with
  | nil =>
    intro hok A r fuel hfuel
    obtain ⟨f, rfl⟩ : ∃ f, fuel = f + 1 := ⟨fuel - 1, by omega⟩
    have henc : A ++ encSep ([] : List MidTok) = A := by simp [encSep, sepChars]
    rw [henc, splitByCnFuel_done A f _ r (splitStep_end A r)]
    simp
  | cons t rest ih =>
    intro hok A r fuel hfuel
    have hokt := hok t (List.mem_cons_self t rest)
    have hokr : ∀ u ∈ rest, MidTokOk u :=
      fun u hu => hok u (List.mem_cons_of_mem t hu)
    have htpos := encTok_length_pos t
    cases rest with
    | nil =>
      obtain ⟨f, rfl⟩ : ∃ f, fuel = f + 1 := ⟨fuel - 1, by omega⟩
      have henc : encSep [t] = encTok t ++ [] := by
        simp [encSep, sepChars]
      rw [henc]
      rw [splitByCnFuel_step _ f _ _ (splitStep_tok A [] r t hokt (Or.inl rfl))]
      have hfuel1 : (encSep ([] : List MidTok)).length + 1 ≤ f := by
        have h0 : (encSep [t]).length + 1 ≤ f + 1 := hfuel
        rw [henc] at h0
        simp only [List.append_nil] at h0
        simp only [encSep, List.map_nil, sepChars, List.length_nil]
        omega
      have hstep := ih hokr (A ++ encTok t) (r ++ [tokWord t]) f hfuel1
      simp only [encSep, List.map_nil, sepChars, List.append_nil] at hstep
      simp only [List.append_nil]
      have hlen : A.length + (encTok t).length = (A ++ encTok t).length := by
        simp
      rw [hlen]
      exact hstep.trans (by simp)
    | cons t2 r2 =>
      have h1 : encSep (t :: t2 :: r2) = encTok t ++ ' ' :: encSep (t2 :: r2) := by
        simp [encSep, sepChars]
      obtain ⟨f2, rfl⟩ : ∃ f2, fuel = f2 + 1 + 1 := by
        refine ⟨fuel - 2, ?_⟩
        have h0 : (encSep (t :: t2 :: r2)).length + 1 ≤ fuel := hfuel
        rw [h1] at h0
        simp only [List.length_append, List.length_cons] at h0
        omega
      rw [h1]
      rw [splitByCnFuel_step _ (f2 + 1) _ _
        (splitStep_tok A (' ' :: encSep (t2 :: r2)) r t hokt
          (Or.inr ⟨encSep (t2 :: r2), rfl⟩))]
      have hlist1 : A ++ (encTok t ++ ' ' :: encSep (t2 :: r2))
          = (A ++ encTok t) ++ ' ' :: encSep (t2 :: r2) := by
        simp
      have hpos1 : A.length + (encTok t).length = (A ++ encTok t).length := by
        simp
      rw [hlist1, hpos1]
      rw [splitByCnFuel_step _ f2 _ _
        (splitStep_space (A ++ encTok t) (encSep (t2 :: r2)) (r ++ [tokWord t]) [])]
      have hlist2 : (A ++ encTok t) ++ ' ' :: encSep (t2 :: r2)
          = ((A ++ encTok t) ++ [' ']) ++ encSep (t2 :: r2) := by
        simp
      have hpos2 : (A ++ encTok t).length + 1
          = ((A ++ encTok t) ++ [' ']).length := by
        simp +arith
      rw [hlist2, hpos2]
      have hfuel2 : (encSep (t2 :: r2)).length + 1 ≤ f2 := by
        have h0 : (encSep (t :: t2 :: r2)).length + 1 ≤ f2 + 1 + 1 := hfuel
        rw [h1] at h0
        simp only [List.length_append, List.length_cons] at h0
        omega
      exact (ih hokr ((A ++ encTok t) ++ [' ']) (r ++ [tokWord t]) f2 hfuel2).trans
        (by simp)

/-- The word recovered by the replacement loop for one intermediate token:
a common-name word goes through the display-name lookup, an operator word is
kept unchanged. -/
def outWord (disp : String → String) : MidTok → String
  | .cnTok cs => disp (String.mk cs)
  | .opTok c b => tokWord (.opTok c b)

theorem startsWith_lCN_of_cn {cs : List Char} (h3 : cs.take 3 = ['C', 'N', '=']) :
    pyStartsWith (String.mk cs) "<CN" = false := by
  show (cs.take 3 == ['<', 'C', 'N']) = false
  rw [h3]; decide

theorem startsWith_cnEq_of_cn {cs : List Char} (h3 : cs.take 3 = ['C', 'N', '=']) :
    pyStartsWith (String.mk cs) "CN=" = true := by
  show (cs.take 3 == ['C', 'N', '=']) = true
  rw [h3]; decide

theorem startsWith_op_false (c : Char) (b : Bool) (p : String)
    (hp : 2 < p.data.length) :
    pyStartsWith (tokWord (.opTok c b)) p = false := by
  cases b with
  | false =>
    show ([c].take p.data.length == p.data) = false
    rw [beq_eq_false_iff_ne]
    intro h
    have := congrArg List.length h
    simp only [List.length_take, List.length_cons, List.length_nil] at this
    omega
  | true =>
    show ([c, '='].take p.data.length == p.data) = false
    rw [beq_eq_false_iff_ne]
    intro h
    have := congrArg List.length h
    simp only [List.length_take, List.length_cons, List.length_nil] at this
    omega

/-- Running the `_replace_cns_with_names` loop from position `i` over words
that decode a well-formed intermediate token sequence: each common-name word
takes the `CN=` branch and is replaced through the display lookup, each
operator word falls through unchanged. -/
theorem loopRun (disp : String → String) (words : List String) :
    ∀ (ts : List MidTok), (∀ t ∈ ts, MidTokOk t) →
    ∀ (i : Nat) (acc : String) (fuel : Nat),
      words.drop i = ts.map tokWord → words.length + 1 - i ≤ fuel → 1 ≤ fuel →
      replaceCnsLoop disp words fuel i 0 acc
        = some (pyStrip (acc ++ preSep (ts.map (outWord disp)))) := by
  intro ts
  induction ts with
  | nil =>
    intro hok i acc fuel hdrop hfuel hfpos
    have hge : words.length ≤ i := List.drop_eq_nil_iff_le.mp (by simpa using hdrop)
    obtain ⟨f, rfl⟩ : ∃ f, fuel = f + 1 := ⟨fuel - 1, by omega⟩
    simp only [replaceCnsLoop]
    rw [dif_neg (show ¬ i < words.length by omega)]
    simp [preSep, str_append_nil]
  | cons t rest ih =>
    intro hok i acc fuel hdrop hfuel hfpos
    have hokt := hok t (List.mem_cons_self t rest)
    have hokr : ∀ u ∈ rest, MidTokOk u :=
      fun u hu => hok u (List.mem_cons_of_mem t hu)
    have hi : i < words.length := by
      by_contra hge
      rw [List.drop_eq_nil_iff_le.mpr (by omega)] at hdrop
      simp at hdrop
    obtain ⟨f, rfl⟩ : ∃ f, fuel = f + 1 := ⟨fuel - 1, by omega⟩
    have hcons : words.drop i = words[i] :: words.drop (i + 1) :=
      List.drop_eq_getElem_cons hi
    rw [hdrop] at hcons
    have hw : words[i] = tokWord t := by
      have := hcons
      simp only [List.map_cons, List.cons.injEq] at this
      exact this.1.symm
    have hrest : words.drop (i + 1) = rest.map tokWord := by
      have := hcons
      simp only [List.map_cons, List.cons.injEq] at this
      exact this.2.symm
    have hget : words.get ⟨i, hi⟩ = tokWord t := by
      rw [List.get_eq_getElem]; exact hw
    have hfuel1 : words.length + 1 - (i + 1) ≤ f := by omega
    have hfpos1 : 1 ≤ f := by omega
    have hacc : ∀ (w P : String), (acc ++ " " ++ w) ++ P = acc ++ (" " ++ w ++ P) := by
      intro w P
      apply strExt
      simp [String.data_append, List.append_assoc]
    simp only [replaceCnsLoop]
    rw [dif_pos hi]
    rw [if_neg (by omega)]
    simp only [hget]
    cases t with
    | cnTok cs =>
      obtain ⟨h3, -⟩ := hokt
      have hs1 : pyStartsWith (tokWord (MidTok.cnTok cs)) "<CN" = false :=
        startsWith_lCN_of_cn h3
      have hs3 : pyStartsWith (tokWord (MidTok.cnTok cs)) "CN=" = true :=
        startsWith_cnEq_of_cn h3
      rw [hs1]
      simp only [Bool.false_and, Bool.false_eq_true, if_false, hs3, if_true]
      rw [ih hokr (i + 1) (acc ++ " " ++ disp (tokWord (MidTok.cnTok cs))) f hrest hfuel1 hfpos1]
      simp only [List.map_cons, preSep, outWord, tokWord]
      rw [hacc]
    | opTok c b =>
      have hs1 : pyStartsWith (tokWord (.opTok c b)) "<CN" = false :=
        startsWith_op_false c b "<CN" (by decide)
      have hs3 : pyStartsWith (tokWord (.opTok c b)) "CN=" = false :=
        startsWith_op_false c b "CN=" (by decide)
      rw [hs1]
      simp only [Bool.false_and, Bool.false_eq_true, if_false, hs3]
      rw [ih hokr (i + 1) (acc ++ " " ++ tokWord (.opTok c b)) f hrest hfuel1 hfpos1]
      simp only [List.map_cons, preSep, outWord]
      rw [hacc]

/-! ## Strip is the identity on space-joined clean words -/

theorem opChars_not_ws : ∀ c ∈ opChars, ¬ c.isWhitespace := by decide

theorem head?_append_left {α : Type} (l1 l2 : List α) (h : l1 ≠ []) :
    (l1 ++ l2).head? = l1.head? := by
  cases l1 with
  | nil => cases h rfl
  | cons a t => rfl

theorem getLast?_append_right {α : Type} (l1 l2 : List α) (h : l2 ≠ []) :
    (l1 ++ l2).getLast? = l2.getLast? := by
  induction l1 with
  | nil => rfl
  | cons a t ih =>
    have hne : t ++ l2 ≠ [] := fun he => h (List.append_eq_nil.mp he).2
    obtain ⟨x, xs, hx⟩ := List.exists_cons_of_ne_nil hne
    rw [List.cons_append, hx, List.getLast?_cons_cons, ← hx, ih]

theorem mem_of_head? {α : Type} {l : List α} {c : α} (h : l.head? = some c) :
    c ∈ l := by
  cases l with
  | nil => cases h
  | cons a t =>
    simp only [List.head?_cons, Option.some.injEq] at h
    subst h
    exact List.mem_cons_self _ _

theorem mem_of_getLast? {α : Type} {l : List α} {c : α}
    (h : l.getLast? = some c) : c ∈ l := by
  induction l with
  | nil => cases h
  | cons a t ih =>
    cases t with
    | nil => cases h; exact List.mem_cons_self a []
    | cons b t2 =>
      rw [List.getLast?_cons_cons] at h
      exact List.mem_cons_of_mem a (ih h)

theorem sepChars_ne_nil (l : List (List Char)) (hl : l ≠ [])
    (h : ∀ x ∈ l, x ≠ []) : sepChars l ≠ [] := by
  cases l with
  | nil => cases hl rfl
  | cons x rest =>
    cases rest with
    | nil => exact h x (by simp)
    | cons y r2 =>
      simp only [sepChars]
      intro he
      exact absurd (List.append_eq_nil.mp he).2 (by simp)

/-- A space-joined list of words that are nonempty with non-whitespace first
and last characters itself starts and ends with non-whitespace. -/
theorem sepChars_clean (l : List (List Char))
    (h : ∀ x ∈ l, x ≠ []
        ∧ (∀ c, x.head? = some c → ¬ c.isWhitespace)
        ∧ (∀ c, x.getLast? = some c → ¬ c.isWhitespace)) :
    (∀ c, (sepChars l).head? = some c → ¬ c.isWhitespace)
    ∧ (∀ c, (sepChars l).getLast? = some c → ¬ c.isWhitespace) := by
  induction l with
  | nil => simp [sepChars]
  | cons x rest ih =>
    obtain ⟨hxne, hxh, hxl⟩ := h x (List.mem_cons_self x rest)
    cases rest with
    | nil => exact ⟨hxh, hxl⟩
    | cons y r2 =>
      have hrest : ∀ z ∈ y :: r2, z ≠ []
          ∧ (∀ c, z.head? = some c → ¬ c.isWhitespace)
          ∧ ∀ c, z.getLast? = some c → ¬ c.isWhitespace :=
        fun z hz => h z (List.mem_cons_of_mem x hz)
      obtain ⟨ihh, ihl⟩ := ih hrest
      have hyne : sepChars (y :: r2) ≠ [] :=
        sepChars_ne_nil _ (by simp) (fun z hz => (hrest z hz).1)
      constructor
      · intro c hc
        rw [sepChars, head?_append_left _ _ hxne] at hc
        exact hxh c hc
      · intro c hc
        rw [sepChars, getLast?_append_right _ _ (by simp)] at hc
        obtain ⟨z, zs, hz⟩ := List.exists_cons_of_ne_nil hyne
        rw [hz, List.getLast?_cons_cons, ← hz] at hc
        exact ihl c hc

theorem pyStripChars_eq_self (cs : List Char)
    (h1 : ∀ c, cs.head? = some c → ¬ c.isWhitespace)
    (h2 : ∀ c, cs.getLast? = some c → ¬ c.isWhitespace) :
    pyStripChars cs = cs := by
  have e1 : cs.dropWhile Char.isWhitespace = cs := by
    cases cs with
    | nil => rfl
    | cons a t =>
      have := h1 a rfl
      simp [List.dropWhile_cons, this]
  rw [pyStripChars, e1]
  have e2 : cs.reverse.dropWhile Char.isWhitespace = cs.reverse := by
    cases hrev : cs.reverse with
    | nil => rfl
    | cons a t =>
      have ha : cs.getLast? = some a := by
        rw [← List.head?_reverse, hrev]; rfl
      have := h2 a ha
      simp [List.dropWhile_cons, this]
  rw [e2, List.reverse_reverse]

theorem pyStrip_eq_self (s : String)
    (h1 : ∀ c, s.data.head? = some c → ¬ c.isWhitespace)
    (h2 : ∀ c, s.data.getLast? = some c → ¬ c.isWhitespace) :
    pyStrip s = s := by
  rw [pyStrip, pyStripChars_eq_self s.data h1 h2, strMk_data]

theorem spaceJoin_data (l : List String) :
    (spaceJoin l).data = sepChars (l.map String.data) := by
  induction l with
  | nil => rfl
  | cons w rest ih =>
    cases rest with
    | nil => rfl
    | cons w2 r2 =>
      simp only [spaceJoin, List.map_cons, sepChars, String.data_append,
        data_space]
      rw [show (List.map String.data r2 : List (List Char)) = List.map String.data r2 from rfl]
      simp only [List.map_cons] at ih
      rw [ih]
      simp [List.append_assoc]

/-! ## Well-formed tokens and their intermediate form -/

/-- A round-trippable token: after brace stripping it is nonempty, and it
either resolves in the object directory to an object whose common name has
the `CN=` head, contains no `>`, and looks back up to an object displaying
the stripped token — or it does not resolve and is an operator word (an
operator character, optionally followed by `=`). -/
def TokenOk (dm : CDataModel) (w : String) : Prop :=
  stripBraces w ≠ "" ∧
  ((∃ obj obj2, resolveToken dm (stripBraces w) = some obj
      ∧ obj.cn.data.take 3 = ['C', 'N', '=']
      ∧ '>' ∉ obj.cn.data
      ∧ dm.getObject obj.cn = some obj2
      ∧ obj2.displayName = stripBraces w)
    ∨ (resolveToken dm (stripBraces w) = none
      ∧ ((∃ c, c ∈ opChars ∧ (stripBraces w).data = [c])
        ∨ ∃ c, c ∈ opChars ∧ (stripBraces w).data = [c, '='])))

/-- The intermediate token `_replace_names_with_cns` produces for one
input token. -/
def midTokOf (dm : CDataModel) (w : String) : MidTok :=
  match resolveToken dm (stripBraces w) with
  | some obj => .cnTok obj.cn.data
  | none =>
    match (stripBraces w).data with
    | [c, '='] => .opTok c true
    | [c] => .opTok c false
    | _ => .opTok '+' false

/-- The three facts the round trip needs about one well-formed token: its
intermediate token is well formed, its image's characters are the encoding
of its intermediate token, and the replacement loop recovers the stripped
token. -/
theorem tokenOk_facts (dm : CDataModel) (w : String) (hok : TokenOk dm w) :
    MidTokOk (midTokOf dm w)
    ∧ (tokenImage dm w).data = encTok (midTokOf dm w)
    ∧ outWord (cnDisplay dm) (midTokOf dm w) = stripBraces w := by
  rcases hok.2 with ⟨obj, obj2, hres, h3, hgt, hobj, hdisp⟩ | ⟨hres, hop⟩
  · refine ⟨?_, ?_, ?_⟩
    · simp [midTokOf, hres, MidTokOk, h3, hgt]
    · simp [tokenImage, midTokOf, hres, encTok, String.data_append]
    · simp only [midTokOf, hres, outWord, strMk_data]
      rw [cnDisplay, hobj]
      exact hdisp
  · rcases hop with ⟨c, hc, hdata⟩ | ⟨c, hc, hdata⟩
    · have hmid : midTokOf dm w = .opTok c false := by
        simp [midTokOf, hres, hdata]
      refine ⟨?_, ?_, ?_⟩
      · rw [hmid]; exact hc
      · rw [hmid]; simp [tokenImage, hres, encTok, hdata]
      · rw [hmid]
        show String.mk [c] = stripBraces w
        exact strExt (by rw [hdata])
    · have hmid : midTokOf dm w = .opTok c true := by
        simp [midTokOf, hres, hdata]
      refine ⟨?_, ?_, ?_⟩
      · rw [hmid]; exact hc
      · rw [hmid]; simp [tokenImage, hres, encTok, hdata]
      · rw [hmid]
        show String.mk [c, '='] = stripBraces w
        exact strExt (by rw [hdata])

/-- A well-formed intermediate token encodes to a nonempty word with
non-whitespace first and last characters. -/
theorem encTok_clean (t : MidTok) (h : MidTokOk t) :
    encTok t ≠ []
    ∧ (∀ c, (encTok t).head? = some c → ¬ c.isWhitespace)
    ∧ (∀ c, (encTok t).getLast? = some c → ¬ c.isWhitespace) := by
  cases t with
  | cnTok cs =>
    refine ⟨by simp [encTok], ?_, ?_⟩
    · intro c hc
      simp only [encTok, List.cons_append, List.head?_cons] at hc
      cases hc
      decide
    · intro c hc
      have hl : (encTok (.cnTok cs)).getLast? = some '>' := by
        show (('<' :: cs) ++ ['>']).getLast? = some '>'
        exact List.getLast?_concat _
      rw [hl] at hc
      cases hc
      decide
  | opTok c2 b =>
    have hnws : ¬ c2.isWhitespace := opChars_not_ws c2 h
    cases b with
    | false =>
      refine ⟨by simp [encTok], ?_, ?_⟩
      · intro c hc
        simp only [encTok, List.head?_cons] at hc
        cases hc
        exact hnws
      · intro c hc
        simp only [encTok, List.getLast?_singleton] at hc
        cases hc
        exact hnws
    | true =>
      refine ⟨by simp [encTok], ?_, ?_⟩
      · intro c hc
        simp only [encTok, List.head?_cons] at hc
        cases hc
        exact hnws
      · intro c hc
        simp only [encTok, List.getLast?_cons_cons, List.getLast?_singleton] at hc
        cases hc
        decide

/-- **C1** (amended).  Translating an expression's display names into
symbolic references and back yields the original expression up to whitespace
normalization and removal of the optional braces, provided every
whitespace-delimited token (after stripping its optional braces) either
resolves in the object directory — to an object whose common name has the
standard `CN=` head, contains no `>`, and resolves back to an object
displaying the original token — or is an operator word (one of
`/*+-()^%<>!=&|`, optionally followed by `=`). -/
theorem round_trip (dm : CDataModel) (e : String)
    (hok : ∀ w ∈ exprTokens e, TokenOk dm w) :
    _replace_cns_with_names dm (_replace_names_with_cns dm e)
      = some (spaceJoin ((exprTokens e).map stripBraces)) := by
  have hC5 := replace_names_with_cns_tokenwise dm e
  cases htoks : exprTokens e with
  | nil =>
    have hempty : _replace_names_with_cns dm e = "" := by
      rw [hC5, htoks]
      rfl
    rw [hempty]
    rfl
  | cons w0 rest0 =>
    rw [htoks] at hC5 hok
    have hfacts : ∀ w ∈ w0 :: rest0,
        MidTokOk (midTokOf dm w)
        ∧ (tokenImage dm w).data = encTok (midTokOf dm w)
        ∧ outWord (cnDisplay dm) (midTokOf dm w) = stripBraces w :=
      fun w hw => tokenOk_facts dm w (hok w hw)
    have hclean0 : ∀ w ∈ w0 :: rest0, stripBraces w ≠ ""
        ∧ ∀ c ∈ (stripBraces w).data, ¬ c.isWhitespace := by
      intro w hw
      refine ⟨(hok w hw).1, ?_⟩
      have hw2 : w ∈ exprTokens e := htoks ▸ hw
      exact stripBraces_clean w (exprTokens_clean e w hw2).2
    set ts := (w0 :: rest0).map (midTokOf dm) with hts
    have hts_ok : ∀ t ∈ ts, MidTokOk t := by
      intro t ht
      rw [hts] at ht
      obtain ⟨w, hw, rfl⟩ := List.mem_map.mp ht
      exact (hfacts w hw).1
    -- the characters of the intermediate expression
    have hdata : (spaceJoin ((w0 :: rest0).map (tokenImage dm))).data
        = encSep ts := by
      rw [spaceJoin_data, encSep, hts, List.map_map, List.map_map]
      exact congrArg sepChars
        (List.map_congr_left fun w hw => (hfacts w hw).2.1)
    have hencClean := sepChars_clean (ts.map encTok) (by
      intro x hx
      obtain ⟨t, ht, rfl⟩ := List.mem_map.mp hx
      exact encTok_clean t (hts_ok t ht))
    have hmid : _replace_names_with_cns dm e = String.mk (encSep ts) := by
      rw [hC5]
      rw [pyStrip_eq_self _ (hdata ▸ hencClean.1) (hdata ▸ hencClean.2)]
      exact strExt hdata
    rw [hmid]
    have hnonempty : String.mk (encSep ts) ≠ "" := by
      intro h
      have hd : encSep ts = [] := congrArg String.data h
      refine sepChars_ne_nil (ts.map encTok) ?_ ?_ hd
      · simp [hts]
      · intro x hx
        obtain ⟨t, ht, rfl⟩ := List.mem_map.mp hx
        exact (encTok_clean t (hts_ok t ht)).1
    have hsplit : _split_by_cn (String.mk (encSep ts)) = some (ts.map tokWord) := by
      have := splitRun ts hts_ok [] [] ((encSep ts).length + 1) (le_refl _)
      simpa using this
    unfold _replace_cns_with_names
    rw [if_neg hnonempty, hsplit]
    have hloop := loopRun (cnDisplay dm) (ts.map tokWord) ts hts_ok 0 ""
      ((ts.map tokWord).length + 1) rfl (by omega) (by omega)
    show replaceCnsLoop (cnDisplay dm) (ts.map tokWord)
      ((ts.map tokWord).length + 1) 0 0 ""
      = some (spaceJoin ((w0 :: rest0).map stripBraces))
    rw [hloop]
    -- the recovered words are the stripped tokens
    have hnames : ts.map (outWord (cnDisplay dm))
        = (w0 :: rest0).map stripBraces := by
      rw [hts, List.map_map]
      exact List.map_congr_left fun w hw => (hfacts w hw).2.2
    rw [str_nil_append, hnames]
    have hnamesNe : (w0 :: rest0).map stripBraces ≠ [] := by simp
    rw [preSep_eq_spaceJoin _ hnamesNe, pyStrip_cons_space]
    have hnamesClean := sepChars_clean (((w0 :: rest0).map stripBraces).map String.data) (by
      intro x hx
      obtain ⟨n, hn, rfl⟩ := List.mem_map.mp hx
      obtain ⟨w, hw, rfl⟩ := List.mem_map.mp hn
      obtain ⟨hne, hws⟩ := hclean0 w hw
      refine ⟨fun hd => hne (strExt (by rw [hd])), ?_, ?_⟩
      · exact fun c hc => hws c (mem_of_head? hc)
      · exact fun c hc => hws c (mem_of_getLast? hc))
    rw [pyStrip_eq_self _ (spaceJoin_data _ ▸ hnamesClean.1)
      (spaceJoin_data _ ▸ hnamesClean.2)]

/-- Example object `A`. -/
def egObjA : CObject := ⟨"CN=a", "A", false⟩

/-- Example object `B`. -/
def egObjB : CObject := ⟨"CN=b", "B", false⟩

/-- Example object `x`. -/
def egObjX : CObject := ⟨"CN=x", "x", false⟩

/-- A directory resolving the display names `A`, `B` and `x` and their
common names. -/
def egDirAB : CObjectDirectory :=
  ⟨fun n =>
    if n = "A" then some egObjA
    else if n = "B" then some egObjB
    else if n = "x" then some egObjX
    else none,
    fun cn =>
    if cn = "CN=a" then some egObjA
    else if cn = "CN=b" then some egObjB
    else if cn = "CN=x" then some egObjX
    else none,
    ⟨"CN=Root,Reference=Time", "Time", false⟩⟩

/-- A data model over `egDirAB`. -/
def egDmAB : CDataModel := ⟨egModelEmpty, [], egDirAB⟩

/-- Counterexample to C1 as stated: in the expression `2 x` the only
identifier token, `x`, resolves in the directory, yet the round trip yields
`x` — the unresolvable literal token `2` is silently dropped, because the
`<CN=` branch of `_split_by_cn` discards the pending current word. -/
theorem round_trip_cex :
    _replace_cns_with_names egDmAB (_replace_names_with_cns egDmAB "2 x")
      = some "x"
    ∧ spaceJoin ((exprTokens "2 x").map stripBraces) = "2 x"
    ∧ _replace_cns_with_names egDmAB (_replace_names_with_cns egDmAB "2 x")
      ≠ some (spaceJoin ((exprTokens "2 x").map stripBraces)) := by
  refine ⟨?_, ?_, ?_⟩ <;> decide

/-- Witness for C1 (amended): the expression `A + {B}` — two resolvable
names, one in braces, and an operator — round-trips. -/
theorem round_trip_witness :
    _replace_cns_with_names egDmAB (_replace_names_with_cns egDmAB "A + {B}")
      = some (spaceJoin ((exprTokens "A + {B}").map stripBraces)) := by
  apply round_trip
  intro w hw
  have he : exprTokens "A + {B}" = ["A", "+", "{B}"] := by decide
  rw [he] at hw
  simp only [List.mem_cons, List.not_mem_nil, or_false] at hw
  rcases hw with rfl | rfl | rfl
  · exact ⟨by decide,
      Or.inl ⟨egObjA, egObjA, by decide, by decide, by decide, by decide,
        by decide⟩⟩
  · exact ⟨by decide, Or.inr ⟨by decide, Or.inl ⟨'+', by decide, by decide⟩⟩⟩
  · exact ⟨by decide,
      Or.inl ⟨egObjB, egObjB, by decide, by decide, by decide, by decide,
        by decide⟩⟩

end Basico


